import Mathlib


/-!
Verification of the IndiaStreamz scrape-then-cache-then-serve pipeline.

Shallow embedding of the JavaScript sources:
  - src/utils/constants.js   (identity generation, magnet parsing, title cleaning)
  - src/utils/parsers.js     (language / series / quality detection)
  - src/cache/file-cache.js  (atomic batch write, read-through in-memory cache)
  - src/scheduler/scraper-scheduler.js (single-flight orchestration)

Modelling conventions:
  - JavaScript strings are Lean String; all concrete inputs are ASCII, so
    toLowerCase/toUpperCase are modelled by mapping Char.toLower/Char.toUpper.
  - The md5 hash from node:crypto is implemented bit-faithfully on Nat,
    with 32-bit arithmetic carried out modulo 2 ^ 32 (validated below
    against the standard RFC 1321 test vectors).
  - The filesystem is an association list from structured paths to
    (value, mtime) pairs plus a logical clock that stands in for mtimeMs.
  - Regular-expression matching is re-implemented for each concrete regex
    of the source, with JavaScript leftmost-match / global-replace
    semantics; scanners use explicit fuel where recursion is not
    structural (fuel is always the string length, which bounds the scan).
-/

/-! ## Basic string helpers -/

/-- JavaScript s.toLowerCase() (ASCII fragment). -/
def lowerStr (s : String) : String := String.mk (s.data.map Char.toLower)

/-- JavaScript s.toUpperCase() (ASCII fragment). -/
def upperStr (s : String) : String := String.mk (s.data.map Char.toUpper)

/-- Exact leading-pattern test. -/
def leadsWith : List Char → List Char → Bool
  | [], _ => true
  | _ :: _, [] => false
  | a :: as, b :: bs => a = b && leadsWith as bs

/-- Occurrence of needle anywhere in the list. -/
def infixOfB (needle : List Char) : List Char → Bool
  | [] => leadsWith needle []
  | c :: cs => leadsWith needle (c :: cs) || infixOfB needle cs

/-- JavaScript a.includes(b): substring containment. -/
def strContains (s sub : String) : Bool := infixOfB sub.data s.data

/-- Digit test for the \d regex class. -/
def isDigitCh (c : Char) : Bool := decide ('0' ≤ c ∧ c ≤ '9')

/-- Whitespace test for the \s regex class (ASCII fragment). -/
def isWsCh (c : Char) : Bool :=
  decide (c = ' ' ∨ c = '\t' ∨ c = '\n' ∨ c = '\r' ∨ c = '\x0b' ∨ c = '\x0c')

/-- Word-character test for the \b regex boundary ([A-Za-z0-9_]). -/
def isWordCh (c : Char) : Bool :=
  decide (('a' ≤ c ∧ c ≤ 'z') ∨ ('A' ≤ c ∧ c ≤ 'Z') ∨ ('0' ≤ c ∧ c ≤ '9') ∨ c = '_')

/-- Case-insensitive character equality (ASCII fragment). -/
def eqCI (a b : Char) : Bool := a.toLower = b.toLower

/-- Case-insensitive test that w is a leading pattern of l. -/
def matchesCI : List Char → List Char → Bool
  | [], _ => true
  | _ :: _, [] => false
  | w :: ws, c :: cs => eqCI w c && matchesCI ws cs

/-- Digits-to-number, JavaScript parseInt(s, 10) on an all-digit capture. -/
def natOfDigits (l : List Char) : Nat :=
  l.foldl (fun acc c => acc * 10 + (c.toNat - 48)) 0

/-! ## md5 (node:crypto), RFC 1321, on Nat with arithmetic mod 2 ^ 32 -/

def m32 : Nat := 4294967296

def add32 (a b : Nat) : Nat := (a + b) % m32

/-- Bitwise complement of a 32-bit value. -/
def not32 (a : Nat) : Nat := 4294967295 - a

/-- 32-bit rotate left; the two shifted parts occupy disjoint bit ranges. -/
def rotl32 (x n : Nat) : Nat := ((x * 2 ^ n) % m32) + (x / 2 ^ (32 - n))

def md5K : List Nat :=
  [0xd76aa478, 0xe8c7b756, 0x242070db, 0xc1bdceee,
   0xf57c0faf, 0x4787c62a, 0xa8304613, 0xfd469501,
   0x698098d8, 0x8b44f7af, 0xffff5bb1, 0x895cd7be,
   0x6b901122, 0xfd987193, 0xa679438e, 0x49b40821,
   0xf61e2562, 0xc040b340, 0x265e5a51, 0xe9b6c7aa,
   0xd62f105d, 0x02441453, 0xd8a1e681, 0xe7d3fbc8,
   0x21e1cde6, 0xc33707d6, 0xf4d50d87, 0x455a14ed,
   0xa9e3e905, 0xfcefa3f8, 0x676f02d9, 0x8d2a4c8a,
   0xfffa3942, 0x8771f681, 0x6d9d6122, 0xfde5380c,
   0xa4beea44, 0x4bdecfa9, 0xf6bb4b60, 0xbebfbc70,
   0x289b7ec6, 0xeaa127fa, 0xd4ef3085, 0x04881d05,
   0xd9d4d039, 0xe6db99e5, 0x1fa27cf8, 0xc4ac5665,
   0xf4292244, 0x432aff97, 0xab9423a7, 0xfc93a039,
   0x655b59c3, 0x8f0ccc92, 0xffeff47d, 0x85845dd1,
   0x6fa87e4f, 0xfe2ce6e0, 0xa3014314, 0x4e0811a1,
   0xf7537e82, 0xbd3af235, 0x2ad7d2bb, 0xeb86d391]

def md5S : List Nat :=
  [7, 12, 17, 22, 7, 12, 17, 22, 7, 12, 17, 22, 7, 12, 17, 22,
   5, 9, 14, 20, 5, 9, 14, 20, 5, 9, 14, 20, 5, 9, 14, 20,
   4, 11, 16, 23, 4, 11, 16, 23, 4, 11, 16, 23, 4, 11, 16, 23,
   6, 10, 15, 21, 6, 10, 15, 21, 6, 10, 15, 21, 6, 10, 15, 21]

def md5F (i b c d : Nat) : Nat :=
  if i < 16 then Nat.lor (Nat.land b c) (Nat.land (not32 b) d)
  else if i < 32 then Nat.lor (Nat.land d b) (Nat.land (not32 d) c)
  else if i < 48 then Nat.xor (Nat.xor b c) d
  else Nat.xor c (Nat.lor b (not32 d))

def md5g (i : Nat) : Nat :=
  if i < 16 then i
  else if i < 32 then (5 * i + 1) % 16
  else if i < 48 then (3 * i + 5) % 16
  else (7 * i) % 16

/-- Little-endian 32-bit word from four bytes. -/
def leWord (b0 b1 b2 b3 : Nat) : Nat := b0 + 256 * b1 + 65536 * b2 + 16777216 * b3

/-- Word g of a 64-byte chunk. -/
def chunkWord (chunk : List Nat) (g : Nat) : Nat :=
  leWord (chunk.getD (4 * g) 0) (chunk.getD (4 * g + 1) 0)
    (chunk.getD (4 * g + 2) 0) (chunk.getD (4 * g + 3) 0)

def md5Step (chunk : List Nat) (st : Nat × Nat × Nat × Nat) (i : Nat) :
    Nat × Nat × Nat × Nat :=
  let a := st.1
  let b := st.2.1
  let c := st.2.2.1
  let d := st.2.2.2
  let f := add32 (add32 (add32 (md5F i b c d) a) (md5K.getD i 0)) (chunkWord chunk (md5g i))
  (d, add32 b (rotl32 f (md5S.getD i 0)), b, c)

def md5Chunk (st : Nat × Nat × Nat × Nat) (chunk : List Nat) : Nat × Nat × Nat × Nat :=
  let r := (List.range 64).foldl (md5Step chunk) st
  (add32 st.1 r.1, add32 st.2.1 r.2.1, add32 st.2.2.1 r.2.2.1, add32 st.2.2.2 r.2.2.2)

/-- n as count little-endian bytes. -/
def leBytesN : Nat → Nat → List Nat
  | 0, _ => []
  | k + 1, n => (n % 256) :: leBytesN k (n / 256)

/-- RFC 1321 padding: 0x80, zeros to 56 mod 64, then the 64-bit bit length. -/
def md5Pad (msg : List Nat) : List Nat :=
  let len := msg.length
  let padLen := (119 - len % 64) % 64
  msg ++ 0x80 :: (List.replicate padLen 0 ++ leBytesN 8 ((8 * len) % 2 ^ 64))

def chunksGo : Nat → List Nat → List (List Nat)
  | 0, _ => []
  | _ + 1, [] => []
  | fuel + 1, l => l.take 64 :: chunksGo fuel (l.drop 64)

def chunksOf64 (l : List Nat) : List (List Nat) := chunksGo l.length l

def md5Init : Nat × Nat × Nat × Nat := (0x67452301, 0xefcdab89, 0x98badcfe, 0x10325476)

def md5Digest (msg : List Nat) : List Nat :=
  let r := (chunksOf64 (md5Pad msg)).foldl md5Chunk md5Init
  leBytesN 4 r.1 ++ leBytesN 4 r.2.1 ++ leBytesN 4 r.2.2.1 ++ leBytesN 4 r.2.2.2

def hexChar (n : Nat) : Char :=
  if n < 10 then Char.ofNat (48 + n) else Char.ofNat (87 + n)

def byteHex (b : Nat) : List Char := [hexChar (b / 16), hexChar (b % 16)]

/-- Bytes of an ASCII string (the repository only hashes ASCII slugs). -/
def strBytes (s : String) : List Nat := s.data.map Char.toNat

/-- Lowercase hex digest, crypto.createHash with md5 and digest hex. -/
def md5Hex (s : String) : String := String.mk (((md5Digest (strBytes s)).map byteHex).flatten)

/-! ## Identity generator: generateMovieId (src/utils/constants.js lines 55-65) -/

/-- The character class [a-z0-9] of the slug regex. -/
def isSlugChar (c : Char) : Bool := decide (('a' ≤ c ∧ c ≤ 'z') ∨ ('0' ≤ c ∧ c ≤ '9'))

/-- JavaScript replace of runs matching [^a-z0-9]+ by a single dash.
    The flag records whether the scanner is inside such a run. -/
def collapseGo : Bool → List Char → List Char
  | _, [] => []
  | inRun, c :: cs =>
    if isSlugChar c then c :: collapseGo false cs
    else if inRun then collapseGo true cs
    else '-' :: collapseGo true cs

/-- JavaScript replace of the pattern anchored-leading-dashes-or-trailing-dashes
    by the empty string: drop one leading and one trailing dash run. -/
def trimDashes (l : List Char) : List Char :=
  ((l.dropWhile (fun c => c = '-')).reverse.dropWhile (fun c => c = '-')).reverse

/-- The normalized slug computed inside generateMovieId from a language
    pre-tag and the title. -/
def movieIdSlug (pre title : String) : String :=
  String.mk (trimDashes (collapseGo false ((pre ++ "-" ++ title).data.map Char.toLower)))

/-- languages.length === 1 picks languages[0], more than one picks multi,
    none picks unknown. -/
def langPreOf : List String → String
  | [] => "unknown"
  | [l] => l
  | _ :: _ :: _ => "multi"

/-- First 8 hex chars of the md5 digest (substring 0 8). -/
def md5Hex8 (s : String) : String := String.mk ((md5Hex s).data.take 8)

/-- generateMovieId from src/utils/constants.js (the normalized slug
    let-binding of the source is inlined). -/
def generateMovieId (title : String) (languages : List String) : String :=
  movieIdSlug (langPreOf languages) title ++ "-" ++
    md5Hex8 (movieIdSlug (langPreOf languages) title)

/-- Conditions that every supported language tag satisfies: nonempty, all
    characters in [a-z0-9], already lowercase. -/
def slugSafeTag (p : String) : Prop :=
  (∀ c ∈ p.data, isSlugChar c = true) ∧ p.data.map Char.toLower = p.data ∧ p.data ≠ []

instance (p : String) : Decidable (slugSafeTag p) := by
  unfold slugSafeTag
  infer_instance

/-- The language tags that the scraper ever passes as a singleton set
    (LANGUAGES in src/utils/constants.js). -/
def supportedLangs : List String :=
  ["tamil", "telugu", "hindi", "malayalam", "kannada", "english"]

/-! ## Magnet parsing: extractInfoHash, extractStreamDetailsFromMagnet
(src/utils/constants.js lines 90-93 and 165-266), extractQualityFromMagnetText
(src/utils/parsers.js lines 1207-1226) -/

/-- Hex-digit class [a-f0-9] under the i flag. -/
def isHexCh (c : Char) : Bool :=
  decide (('a' ≤ c ∧ c ≤ 'f') ∨ ('A' ≤ c ∧ c ≤ 'F') ∨ ('0' ≤ c ∧ c ≤ '9'))

/-- Exactly forty leading hex characters, as matched by the btih capture. -/
def hexRun40 (l : List Char) : Option (List Char) :=
  let run := l.take 40
  if run.length = 40 ∧ run.all isHexCh then some run else none

/-- Leftmost match of the case-insensitive pattern btih: followed by a
    40-hex capture; the capture is returned in its original case. -/
def btihScan : List Char → Option (List Char)
  | [] => none
  | c :: cs =>
    if matchesCI "btih:".data (c :: cs) then
      match hexRun40 ((c :: cs).drop 5) with
      | some run => some run
      | none => btihScan cs
    else btihScan cs

/-- extractInfoHash from src/utils/constants.js: the raw capture, without
    any case conversion. -/
def extractInfoHash (magnetLink : String) : Option String :=
  (btihScan magnetLink.data).map String.mk

/-- extractInfoHash from src/integrations/torbox-client.js: the same
    regex, but the capture is lowercased. -/
def torboxExtractInfoHash (magnetLink : String) : Option String :=
  (btihScan magnetLink.data).map (fun l => String.mk (l.map Char.toLower))

/-- Leftmost match of dn= followed by the nonempty greedy [^&]+ capture. -/
def dnScan : List Char → Option (List Char)
  | [] => none
  | c :: cs =>
    if leadsWith "dn=".data (c :: cs) then
      let cap := ((c :: cs).drop 3).takeWhile (fun d => ¬ d = '&')
      if cap.isEmpty then dnScan cs else some cap
    else dnScan cs

/-- decodeURIComponent, single-byte fragment: a percent escape of two hex
    digits becomes the character with that code; multi-byte UTF-8 escapes
    and the URIError on malformed input are outside the modelled fragment
    (no display name of the claims contains an escape). -/
def hexDigitVal (c : Char) : Nat :=
  if isDigitCh c then c.toNat - 48
  else if decide ('a' ≤ c ∧ c ≤ 'f') then c.toNat - 87
  else c.toNat - 55

def pctDecode : List Char → List Char
  | [] => []
  | '%' :: a :: b :: rest =>
    if isHexCh a ∧ isHexCh b then
      Char.ofNat (16 * hexDigitVal a + hexDigitVal b) :: pctDecode rest
    else '%' :: pctDecode (a :: b :: rest)
  | c :: rest => c :: pctDecode rest

def decodeURIComponentM (s : String) : String := String.mk (pctDecode s.data)

/-- Case-insensitive leading-pattern anywhere in the list. -/
def infixCI (needle : List Char) : List Char → Bool
  | [] => matchesCI needle []
  | c :: cs => matchesCI needle (c :: cs) || infixCI needle cs

/-- The parenthesised audio group: leftmost ( whose greedy non-) content
    is closed by ) and either contains audio (case-insensitively) or
    starts with DD, AAC or DTS, per the alternation of the audio regex. -/
def audioGroupScanGo : Nat → List Char → Option (List Char)
  | 0, _ => none
  | _ + 1, [] => none
  | fuel + 1, c :: cs =>
    if c = '(' then
      let content := cs.takeWhile (fun d => ¬ d = ')')
      match cs.dropWhile (fun d => ¬ d = ')') with
      | ')' :: _ =>
        if infixCI "audio".data content || matchesCI "DD".data content
            || matchesCI "AAC".data content || matchesCI "DTS".data content then
          some content
        else audioGroupScanGo fuel cs
      | _ => audioGroupScanGo fuel cs
    else audioGroupScanGo fuel cs

def audioGroupScan (l : List Char) : Option (List Char) := audioGroupScanGo l.length l

/-- The audioText classification chain (case-sensitive includes calls). -/
def audioOfContent (content : List Char) : Option String :=
  let s := String.mk content
  if strContains s "DD+5.1" || strContains s "DD 5.1" then some "DD+5.1"
  else if strContains s "DD+" || strContains s "Dolby Digital" then some "DD+"
  else if strContains s "AAC" then some "AAC"
  else if strContains s "DTS" then some "DTS"
  else none

/-- Leftmost digit run followed by optional spaces and the given
    case-insensitive word; returns the digit capture. -/
def numThenWordCI (w : List Char) : Nat → List Char → Option (List Char)
  | 0, _ => none
  | _ + 1, [] => none
  | fuel + 1, c :: cs =>
    if isDigitCh c then
      let digits := (c :: cs).takeWhile isDigitCh
      let after := ((c :: cs).dropWhile isDigitCh).dropWhile isWsCh
      if matchesCI w after then some digits else numThenWordCI w fuel cs
    else numThenWordCI w fuel cs

/-- Leftmost decimal number followed by optional spaces and GB, MB or TB;
    returns the raw number and unit captures. The JavaScript parseFloat
    + toFixed presentation of the size is floating-point formatting and
    is deliberately left at the raw captures (no claim concerns it). -/
def sizeScanGo : Nat → List Char → Option (List Char × List Char)
  | 0, _ => none
  | _ + 1, [] => none
  | fuel + 1, c :: cs =>
    if isDigitCh c then
      let intPart := (c :: cs).takeWhile isDigitCh
      let rest1 := (c :: cs).dropWhile isDigitCh
      let numRest : List Char × List Char :=
        match rest1 with
        | '.' :: r => (intPart ++ '.' :: r.takeWhile isDigitCh, r.dropWhile isDigitCh)
        | _ => (intPart, rest1)
      let after := numRest.2.dropWhile isWsCh
      if matchesCI "GB".data after then some (numRest.1, after.take 2)
      else if matchesCI "MB".data after then some (numRest.1, after.take 2)
      else if matchesCI "TB".data after then some (numRest.1, after.take 2)
      else sizeScanGo fuel cs
    else sizeScanGo fuel cs

def sizeScan (l : List Char) : Option (List Char × List Char) := sizeScanGo l.length l

/-- The details record built by extractStreamDetailsFromMagnet. -/
structure StreamDetails where
  quality : Option String
  codec : Option String
  audio : Option String
  audioBitrate : Option String
  sizeRaw : Option (List Char × List Char)
  source : Option String
  languages : List String
deriving DecidableEq

/-- The quality if chain: priority 4K-family, then 1080P-family, then
    720P-family, then 480P, with the final else defaulting to 1080p. -/
def qualityOfUpper (u : String) : Option String :=
  if strContains u "4K" || strContains u "2160P" || strContains u "UHD" then some "4K"
  else if strContains u "1080P" || strContains u "FULL HD" then some "1080p"
  else if strContains u "720P" || strContains u "HD" then some "720p"
  else if strContains u "480P" then some "480p"
  else some "1080p"

/-- The codec if chain; the two trailing x265 and x264 arms of the source
    are unreachable (subsumed by the first two tests) but kept. -/
def codecOfUpper (u : String) : Option String :=
  if strContains u "HEVC" || strContains u "H.265" || strContains u "X265" then some "HEVC"
  else if strContains u "AVC" || strContains u "H.264" || strContains u "X264" then some "AVC"
  else if strContains u "X265" then some "x265"
  else if strContains u "X264" then some "x264"
  else none

/-- The source if chain. -/
def sourceOfUpper (u : String) : Option String :=
  if strContains u "TRUE WEB-DL" || strContains u "TRUE WEBDL" then some "WEB-DL"
  else if strContains u "WEB-DL" || strContains u "WEBDL" then some "WEB-DL"
  else if strContains u "HDRIP" || strContains u "HD RIP" then some "HDRip"
  else if strContains u "BLURAY" || strContains u "BLU-RAY" then some "BluRay"
  else if strContains u "DVDRIP" then some "DVDRip"
  else none

/-- The classification body applied to the decoded display name. -/
def streamDetailsOfName (displayName : String) : StreamDetails :=
  let upper := upperStr displayName
  let audioGroup := audioGroupScan displayName.data
  { quality := qualityOfUpper upper
    codec := codecOfUpper upper
    audio :=
      match audioGroup with
      | some content => audioOfContent content
      | none => none
    audioBitrate :=
      match audioGroup with
      | some content =>
        match numThenWordCI "KBPS".data content.length content with
        | some ds => some (String.mk ds ++ "Kbps")
        | none =>
          match numThenWordCI "KB".data content.length content with
          | some ds => some (String.mk ds ++ "Kbps")
          | none => none
      | none => none
    sizeRaw := sizeScan displayName.data
    source := sourceOfUpper upper
    languages := [] }

/-- extractStreamDetailsFromMagnet from src/utils/constants.js: requires a
    dn= component, decodes it, classifies the decoded display name. -/
def extractStreamDetailsFromMagnet (magnetLink : String) : Option StreamDetails :=
  if strContains magnetLink "dn=" = false then none
  else
    match dnScan magnetLink.data with
    | none => none
    | some dn => some (streamDetailsOfName (decodeURIComponentM (String.mk dn)))

/-- extractQualityFromMagnetText from src/utils/parsers.js. -/
def extractQualityFromMagnetText (text : String) : String :=
  let u := upperStr text
  if strContains u "4K" || strContains u "2160P" || strContains u "UHD" then "4K"
  else if strContains u "1080P" || strContains u "FULL HD" then "1080p"
  else if strContains u "720P" || strContains u "HD" then "720p"
  else if strContains u "480P" then "480p"
  else "1080p"

/-- The magnet URI of the spec's magnet-parsing example. -/
def specMagnet : String :=
  "magnet:?xt=urn:btih:ABCDEF0123456789ABCDEF0123456789ABCDEF01&dn=Movie.2024.1080p"

/-! ## Series and language detection (src/utils/parsers.js lines 1063-1202) -/

structure SeriesInfo where
  isSeries : Bool
  season : Option Nat
  episodes : List Nat
deriving DecidableEq

/-- Leftmost match of S followed by digits (the i flag also accepts s). -/
def sSeasonScan : List Char → Option Nat
  | [] => none
  | c :: cs =>
    if eqCI 'S' c && !(cs.takeWhile isDigitCh).isEmpty then
      some (natOfDigits (cs.takeWhile isDigitCh))
    else sSeasonScan cs

/-- Leftmost match of Season, one or more spaces, digits (case-insensitive). -/
def seasonWordScan : List Char → Option Nat
  | [] => none
  | c :: cs =>
    if matchesCI "Season".data (c :: cs) then
      let after := (c :: cs).drop 6
      let ws := after.takeWhile isWsCh
      let digits := (after.dropWhile isWsCh).takeWhile isDigitCh
      if ¬ ws.isEmpty ∧ ¬ digits.isEmpty then some (natOfDigits digits)
      else seasonWordScan cs
    else seasonWordScan cs

/-- Match at the head of the episode-range pattern: EP, optional spaces,
    optional open paren, optional spaces, digits, optional spaces, dash,
    optional spaces, digits (the trailing close paren never constrains
    the captures). -/
def epRangeAt (l : List Char) : Option (Nat × Nat) :=
  if matchesCI "EP".data l then
    let r1 := (l.drop 2).dropWhile isWsCh
    let r2 := match r1 with
      | '(' :: t => t.dropWhile isWsCh
      | other => other
    let d1 := r2.takeWhile isDigitCh
    if d1.isEmpty then none
    else
      match (r2.dropWhile isDigitCh).dropWhile isWsCh with
      | '-' :: t =>
        let d2 := (t.dropWhile isWsCh).takeWhile isDigitCh
        if d2.isEmpty then none else some (natOfDigits d1, natOfDigits d2)
      | _ => none
  else none

def epRangeScan : List Char → Option (Nat × Nat)
  | [] => none
  | c :: cs =>
    match epRangeAt (c :: cs) with
    | some r => some r
    | none => epRangeScan cs

/-- Match at the head of Episode digits dash-or-to digits. -/
def episodeRangeAt (l : List Char) : Option (Nat × Nat) :=
  if matchesCI "Episode".data l then
    let a := l.drop 7
    let ws := a.takeWhile isWsCh
    let d1 := (a.dropWhile isWsCh).takeWhile isDigitCh
    if ws.isEmpty ∨ d1.isEmpty then none
    else
      let r := ((a.dropWhile isWsCh).dropWhile isDigitCh).dropWhile isWsCh
      let sep : Option (List Char) :=
        match r with
        | '-' :: t => some t
        | _ => if matchesCI "to".data r then some (r.drop 2) else none
      match sep with
      | some t =>
        let d2 := (t.dropWhile isWsCh).takeWhile isDigitCh
        if d2.isEmpty then none else some (natOfDigits d1, natOfDigits d2)
      | none => none
  else none

def episodeRangeScan : List Char → Option (Nat × Nat)
  | [] => none
  | c :: cs =>
    match episodeRangeAt (c :: cs) with
    | some r => some r
    | none => episodeRangeScan cs

/-- Single-episode fallback pattern EP, optional spaces and paren, digits. -/
def epSingleAt (l : List Char) : Option Nat :=
  if matchesCI "EP".data l then
    let r1 := (l.drop 2).dropWhile isWsCh
    let r2 := match r1 with
      | '(' :: t => t.dropWhile isWsCh
      | other => other
    let d := r2.takeWhile isDigitCh
    if d.isEmpty then none else some (natOfDigits d)
  else none

def epSingleScan : List Char → Option Nat
  | [] => none
  | c :: cs =>
    match epSingleAt (c :: cs) with
    | some r => some r
    | none => epSingleScan cs

/-- The inclusive for loop pushing startEp..endEp. -/
def epList (s e : Nat) : List Nat := List.range' s (e + 1 - s)

/-- detectSeriesFromTitle from src/utils/parsers.js. A zero season counts
    as falsy in the JavaScript single-episode inference guard. -/
def detectSeriesFromTitle (title : String) : SeriesInfo :=
  let l := title.data
  let r1 : SeriesInfo :=
    match sSeasonScan l with
    | some n => { isSeries := true, season := some n, episodes := [] }
    | none => { isSeries := false, season := none, episodes := [] }
  let r2 : SeriesInfo :=
    if ¬ r1.isSeries then
      match seasonWordScan l with
      | some n => { isSeries := true, season := some n, episodes := [] }
      | none => r1
    else r1
  let r3 : SeriesInfo :=
    match epRangeScan l with
    | some (s, e) => { r2 with isSeries := true, episodes := epList s e }
    | none =>
      match episodeRangeScan l with
      | some (s, e) => { r2 with isSeries := true, episodes := epList s e }
      | none => r2
  if r3.isSeries ∧ r3.season.getD 0 ≠ 0 ∧ r3.episodes.isEmpty then
    match epSingleScan l with
    | some n => { r3 with episodes := [n] }
    | none => r3
  else r3

/-- The languageMap of detectLanguagesFromTitle, in insertion order. -/
def langEntries : List (String × String) :=
  [("TAMIL", "tamil"), ("TELUGU", "telugu"), ("HINDI", "hindi"),
   ("MALAYALAM", "malayalam"), ("KANNADA", "kannada"), ("ENGLISH", "english"),
   ("ENG", "english"), ("TAM", "tamil"), ("TEL", "telugu"), ("HIN", "hindi"),
   ("MAL", "malayalam"), ("KAN", "kannada"), ("CHI", "hindi"), ("CHINESE", "hindi")]

def langMapLookup (k : String) : Option String :=
  (langEntries.find? (fun e => e.1 = k)).map (fun e => e.2)

/-- All matches of the global group pattern open, nonempty run without the
    close character, close; on failure at an open character the scan
    resumes one character later, as the regex engine does. -/
def parenGroupsGo (openCh closeCh : Char) : Nat → List Char → List (List Char)
  | 0, _ => []
  | _ + 1, [] => []
  | fuel + 1, c :: cs =>
    if c = openCh then
      let content := cs.takeWhile (fun d => ¬ d = closeCh)
      match cs.dropWhile (fun d => ¬ d = closeCh) with
      | _ :: after =>
        if content.isEmpty then parenGroupsGo openCh closeCh fuel cs
        else content :: parenGroupsGo openCh closeCh fuel after
      | [] => parenGroupsGo openCh closeCh fuel cs
    else parenGroupsGo openCh closeCh fuel cs

def parenGroups (openCh closeCh : Char) (l : List Char) : List (List Char) :=
  parenGroupsGo openCh closeCh l.length l

/-- Case-insensitive whole-word occurrence (the \b word \b /i test). -/
def wordBoundaryAt (w : List Char) (prev : Option Char) (l : List Char) : Bool :=
  matchesCI w l
  && (match prev with | some p => !isWordCh p | none => true)
  && (match l.drop w.length with | d :: _ => !isWordCh d | [] => true)

def hasWordCIGo (w : List Char) (prev : Option Char) : List Char → Bool
  | [] => wordBoundaryAt w prev []
  | c :: cs => wordBoundaryAt w prev (c :: cs) || hasWordCIGo w (some c) cs

def hasWordCI (s : String) (w : String) : Bool := hasWordCIGo w.data none s.data

/-- The alternation of the looks-like-a-language-list test. -/
def langListWords : List String :=
  ["TAM", "TEL", "HIN", "MAL", "KAN", "ENG",
   "Tamil", "Telugu", "Hindi", "Malayalam", "Kannada", "English"]

def dedupAppend (acc : List (List Char)) (x : List Char) : List (List Char) :=
  if acc.contains x then acc else acc ++ [x]

/-- The foundPatterns set: contents of parenthesised then bracketed then
    again parenthesised groups that contain a plus or a language word,
    deduplicated in insertion order. -/
def foundPatterns (title : String) : List (List Char) :=
  let l := title.data
  let cands := parenGroups '(' ')' l ++ parenGroups '[' ']' l ++ parenGroups '(' ')' l
  cands.foldl (fun acc content =>
    if strContains (String.mk content) "+"
        || langListWords.any (fun w => hasWordCI (String.mk content) w) then
      dedupAppend acc content
    else acc) []

def pushIfNew (acc : List String) (x : String) : List String :=
  if acc.contains x then acc else acc ++ [x]

/-- JavaScript split on a single character (empty pieces preserved). -/
def splitOnCh (sep : Char) : List Char → List (List Char)
  | [] => [[]]
  | c :: cs =>
    let r := splitOnCh sep cs
    if c = sep then [] :: r
    else
      match r with
      | h :: t => (c :: h) :: t
      | [] => [[c]]

/-- JavaScript trim (ASCII whitespace fragment). -/
def trimCh (l : List Char) : List Char :=
  ((l.dropWhile isWsCh).reverse.dropWhile isWsCh).reverse

/-- Phase one: split each found pattern on plus, trim and uppercase each
    part, collect the mapped language of each part that is a key. -/
def phase1Langs (title : String) : List String :=
  (foundPatterns title).foldl (fun acc content =>
    ((splitOnCh '+' content).map (fun p => String.mk ((trimCh p).map Char.toUpper))).foldl
      (fun acc2 part =>
        match langMapLookup part with
        | some lang => pushIfNew acc2 lang
        | none => acc2) acc) []

/-- detectLanguagesFromTitle from src/utils/parsers.js: phase one over
    bracketed lists, then standalone whole-word mentions. -/
def detectLanguagesFromTitle (title : String) : List String :=
  let titleUpper := upperStr title
  langEntries.foldl (fun acc e =>
    if strContains titleUpper e.1 && !acc.contains e.2 && hasWordCI title e.1 then
      acc ++ [e.2]
    else acc) (phase1Langs title)

/-! ## Display-title cleaning: cleanTitleForDisplay
(src/utils/constants.js lines 462-503) -/

/-- Global-replace driver with JavaScript semantics: leftmost match,
    resume after the consumed characters, previous original character
    carried for word boundaries; a matcher yields the number of consumed
    characters (always positive for the patterns modelled here). -/
def gReplaceGo (m : Option Char → List Char → Option Nat) (repl : List Char) :
    Nat → Option Char → List Char → List Char
  | 0, _, l => l
  | _ + 1, _, [] => []
  | fuel + 1, prev, c :: cs =>
    match m prev (c :: cs) with
    | some (n + 1) =>
      repl ++ gReplaceGo m repl fuel (((c :: cs).take (n + 1)).getLast?) ((c :: cs).drop (n + 1))
    | _ => c :: gReplaceGo m repl fuel (some c) cs

def gReplace (m : Option Char → List Char → Option Nat) (repl l : List Char) : List Char :=
  gReplaceGo m repl l.length none l

/-- Matcher for one-or-more whitespace. -/
def wsRunM (_ : Option Char) (l : List Char) : Option Nat :=
  let r := l.takeWhile isWsCh
  if r.isEmpty then none else some r.length

/-- Matcher for optional spaces, dash, optional spaces, one bracketed
    group closed lazily (the dot of the lazy body does not cross a
    newline). -/
def dashBracketM (openCh closeCh : Char) (_ : Option Char) (l : List Char) : Option Nat :=
  let a := l.dropWhile isWsCh
  match a with
  | '-' :: b =>
    let c := b.dropWhile isWsCh
    match c with
    | o :: d =>
      if o = openCh then
        let content := d.takeWhile (fun x => ¬ x = closeCh)
        match d.dropWhile (fun x => ¬ x = closeCh) with
        | _ :: rest =>
          if content.all (fun x => ¬ x = '\n') then some (l.length - rest.length) else none
        | [] => none
      else none
    | [] => none
  | _ => none

/-- The technical-term alternation, in the source's order. -/
def techAlts : List (List Char) :=
  ["TRUE".data, "WEB-DL".data, "HDRip".data, "PreDVD".data, "HQ".data, "UHD".data,
   "ESub".data, "HC-ESub".data, "Org Auds".data, "Original Audios".data,
   "HQ Clean Audio".data, "HQ Clean Audios".data]

/-- Matcher for optional spaces, the first matching technical term
    (case-insensitive), optional spaces. -/
def techM (_ : Option Char) (l : List Char) : Option Nat :=
  let wsLen := (l.takeWhile isWsCh).length
  let a := l.dropWhile isWsCh
  match techAlts.find? (fun w => matchesCI w a) with
  | some w => some (wsLen + w.length + ((a.drop w.length).takeWhile isWsCh).length)
  | none => none

/-- Matcher for spaces, dash, spaces, dash, spaces. -/
def dblDashM (_ : Option Char) (l : List Char) : Option Nat :=
  match l.dropWhile isWsCh with
  | '-' :: b =>
    match b.dropWhile isWsCh with
    | '-' :: d => some (l.length - (d.dropWhile isWsCh).length)
    | _ => none
  | _ => none

/-- Matcher for optional spaces, a parenthesised four-digit year, optional
    spaces. -/
def yearParenM (_ : Option Char) (l : List Char) : Option Nat :=
  match l.dropWhile isWsCh with
  | '(' :: b =>
    let ds := b.take 4
    if ds.length = 4 ∧ ds.all isDigitCh then
      match b.drop 4 with
      | ')' :: rest => some (l.length - (rest.dropWhile isWsCh).length)
      | _ => none
    else none
  | _ => none

/-- Matcher for a bare year 19xx or 20xx between word boundaries. -/
def yearBareM (prev : Option Char) (l : List Char) : Option Nat :=
  let okPrev := match prev with | some p => !isWordCh p | none => true
  let okNext := match l.drop 4 with | d :: _ => !isWordCh d | [] => true
  let ds := (l.drop 2).take 2
  if okPrev && (leadsWith "19".data l || leadsWith "20".data l)
      && decide (ds.length = 2) && ds.all isDigitCh && okNext then
    some 4
  else none

/-- Matcher for a standalone case-insensitive word between boundaries. -/
def standaloneM (w : List Char) (prev : Option Char) (l : List Char) : Option Nat :=
  if wordBoundaryAt w prev l then some w.length else none

/-- Anchored end pattern: one or more spaces, the word, spaces to the end. -/
def langEndMatchAt (w : List Char) (l : List Char) : Bool :=
  let a := l.dropWhile isWsCh
  !(l.takeWhile isWsCh).isEmpty && matchesCI w a && (a.drop w.length).all isWsCh

def removeLangEndGo (w : List Char) : Nat → List Char → List Char
  | 0, l => l
  | _ + 1, [] => []
  | fuel + 1, c :: cs =>
    if langEndMatchAt w (c :: cs) then [] else c :: removeLangEndGo w fuel cs

/-- Replace the leftmost match of spaces-word-spaces-end by nothing. -/
def removeLangEnd (w l : List Char) : List Char := removeLangEndGo w l.length l

/-- Anchored start pattern: the word then one or more spaces. -/
def removeLangStart (w l : List Char) : List Char :=
  if matchesCI w l && !((l.drop w.length).takeWhile isWsCh).isEmpty then
    (l.drop w.length).dropWhile isWsCh
  else l

/-- The language tokens stripped by cleanTitleForDisplay, in order. -/
def langTokens : List (List Char) :=
  ["Tamil".data, "Telugu".data, "Hindi".data, "Malayalam".data, "Kannada".data,
   "English".data, "TAM".data, "TEL".data, "HIN".data, "MAL".data, "KAN".data, "ENG".data]

/-- One iteration of the language-stripping loop: end anchor, start
    anchor, standalone occurrences, each followed by a trim. -/
def stripLangStep (l w : List Char) : List Char :=
  let a := trimCh (removeLangEnd w l)
  let b := trimCh (removeLangStart w a)
  trimCh (gReplace (standaloneM w) [] b)

/-- The cleaned intermediate of cleanTitleForDisplay: trim, whitespace
    collapse, bracket and paren noise removal, technical terms, double
    dashes, whitespace collapse, trim. -/
def cleanedStage (title : String) : List Char :=
  let s0 := trimCh title.data
  let s1 := gReplace wsRunM [' '] s0
  let s2 := gReplace (dashBracketM '[' ']') [] s1
  let s3 := gReplace (dashBracketM '(' ')') [] s2
  let s4 := gReplace techM [' '] s3
  let s5 := gReplace dblDashM [' '] s4
  trimCh (gReplace wsRunM [' '] s5)

/-- Trailing run of dashes and spaces, the final cleanup regex. -/
def dropTrailingDashWs (l : List Char) : List Char :=
  (l.reverse.dropWhile (fun ch => isWsCh ch || ch = '-')).reverse

/-- The nameOnly stage: year removal, language stripping, residual
    whitespace and dash cleanup. -/
def nameOnlyStage (cleaned : List Char) : List Char :=
  let a := trimCh (gReplace yearParenM [' '] cleaned)
  let b := trimCh (gReplace yearBareM [] a)
  let c := langTokens.foldl stripLangStep b
  let d := trimCh (gReplace dblDashM [' '] (gReplace wsRunM [' '] c))
  trimCh (dropTrailingDashWs d)

/-- cleanTitleForDisplay from src/utils/constants.js: the nameOnly result,
    falling back to the cleaned intermediate when stripping emptied it. -/
def cleanTitleForDisplay (title : String) : String :=
  if title = "" then ""
  else if (nameOnlyStage (cleanedStage title)).isEmpty then String.mk (cleanedStage title)
  else String.mk (nameOnlyStage (cleanedStage title))

/-! ## File cache model (src/cache/file-cache.js)

The filesystem state is an association list from structured paths to
(value, mtime) pairs with a logical clock standing in for mtimeMs.
Serialization is modelled by storing the value itself (JSON round-trips
identically). A failing writeFile is modelled as leaving the filesystem
unchanged; rename is modelled infallible (the same-volume atomic rename
of the design), as the failure injection of the claims is at the
serialization/write step; unlink during cleanup always succeeds. -/

def lookupA {κ α : Type} [DecidableEq κ] (k : κ) : List (κ × α) → Option α
  | [] => none
  | e :: rest => if e.1 = k then some e.2 else lookupA k rest

def removeA {κ α : Type} [DecidableEq κ] (k : κ) : List (κ × α) → List (κ × α)
  | [] => []
  | e :: rest => if e.1 = k then removeA k rest else e :: removeA k rest

def insertA {κ α : Type} [DecidableEq κ] (k : κ) (a : α) (l : List (κ × α)) : List (κ × α) :=
  (k, a) :: removeA k l

/-- A cached value: a catalog is a sequence of entries, every other file
    an opaque serialized object. -/
inductive FileVal where
  | catalog (entries : List String)
  | obj (s : String)
deriving DecidableEq

/-- The six path shapes of the three cache directories: language.json and
    language.json.tmp under catalogs, id.json and id.json.tmp under
    movies (series share this directory), id.json and id.json.tmp under
    streams. Final names end in .json and temporary names in .tmp, so the
    six shapes never collide. -/
inductive FPath where
  | catFinal (lang : String)
  | catTmp (lang : String)
  | movFinal (id : String)
  | movTmp (id : String)
  | strFinal (id : String)
  | strTmp (id : String)
deriving DecidableEq

def FPath.isTmp : FPath → Bool
  | .catTmp _ => true
  | .movTmp _ => true
  | .strTmp _ => true
  | _ => false

structure FS where
  files : List (FPath × (FileVal × Nat))
  clock : Nat
deriving DecidableEq

def FS.entry (fs : FS) (p : FPath) : Option (FileVal × Nat) := lookupA p fs.files

def FS.write (fs : FS) (p : FPath) (v : FileVal) : FS :=
  { files := insertA p (v, fs.clock) fs.files, clock := fs.clock + 1 }

def FS.unlink (fs : FS) (p : FPath) : FS := { fs with files := removeA p fs.files }

/-- Rename keeps the file value and its mtime (POSIX rename does not
    touch the modification time); a missing source would throw, which no
    modelled trace reaches. -/
def FS.rename (fs : FS) (src dst : FPath) : FS :=
  match lookupA src fs.files with
  | none => fs
  | some e => { fs with files := insertA dst e (removeA src fs.files) }

/-- One in-memory read cache: key to (data, mtime). -/
def Mem : Type := List (String × (FileVal × Nat))

instance : DecidableEq Mem := by
  unfold Mem
  infer_instance

structure CacheState where
  fs : FS
  catalogCache : Mem
  movieCache : Mem
  streamCache : Mem
deriving DecidableEq

/-- The shared shape of getCatalog, getMovie and getStreams: consult the
    in-memory entry, validate it against the file mtime, trust it when
    the file is gone (the ENOENT branch), otherwise load from disk and
    refresh the in-memory entry; a missing file with no memory entry is
    the absent result. -/
def readThrough (mem : Mem) (key : String) (e : Option (FileVal × Nat)) :
    Option FileVal × Mem :=
  match lookupA key mem, e with
  | some c, some fe => if fe.2 = c.2 then (some c.1, mem) else (some fe.1, insertA key fe mem)
  | some c, none => (some c.1, mem)
  | none, some fe => (some fe.1, insertA key fe mem)
  | none, none => (none, mem)

def getCatalog (st : CacheState) (language : String) : Option FileVal × CacheState :=
  let r := readThrough st.catalogCache language (st.fs.entry (FPath.catFinal language))
  (r.1, { st with catalogCache := r.2 })

def getMovie (st : CacheState) (movieId : String) : Option FileVal × CacheState :=
  let r := readThrough st.movieCache movieId (st.fs.entry (FPath.movFinal movieId))
  (r.1, { st with movieCache := r.2 })

/-- Series are stored in the movies directory, so getSeries is getMovie. -/
def getSeries (st : CacheState) (seriesId : String) : Option FileVal × CacheState :=
  getMovie st seriesId

def getStreams (st : CacheState) (movieId : String) : Option FileVal × CacheState :=
  let r := readThrough st.streamCache movieId (st.fs.entry (FPath.strFinal movieId))
  (r.1, { st with streamCache := r.2 })

/-- The cache families invalidated after a rename, tagged as in the
    finalFiles records of setAll. -/
inductive WKey where
  | lang (l : String)
  | movie (id : String)
  | stream (id : String)
deriving DecidableEq

structure WriteOp where
  temp : FPath
  final : FPath
  val : FileVal
  wkey : WKey
deriving DecidableEq

/-- One batch passed to setAll; objects of the four families keyed as in
    the source. -/
structure BatchData where
  catalogs : List (String × List String)
  movies : List (String × String)
  series : List (String × String)
  streams : List (String × String)
deriving DecidableEq

/-- The write operations of a batch, in the source's order: catalogs
    (skipping empty sequences), movies, series, streams. -/
def batchWrites (d : BatchData) : List WriteOp :=
  (d.catalogs.filter (fun c => !c.2.isEmpty)).map
      (fun c => ⟨FPath.catTmp c.1, FPath.catFinal c.1, FileVal.catalog c.2, WKey.lang c.1⟩)
    ++ d.movies.map
      (fun m => ⟨FPath.movTmp m.1, FPath.movFinal m.1, FileVal.obj m.2, WKey.movie m.1⟩)
    ++ d.series.map
      (fun m => ⟨FPath.movTmp m.1, FPath.movFinal m.1, FileVal.obj m.2, WKey.movie m.1⟩)
    ++ d.streams.map
      (fun m => ⟨FPath.strTmp m.1, FPath.strFinal m.1, FileVal.obj m.2, WKey.stream m.1⟩)

/-- The temp-file writing loop. writeOk says whether the i-th writeFile
    call succeeds; on the first failure the loop stops with the temp
    files pushed so far and the failure flag. -/
def writePhase (writeOk : Nat → Bool) : FS → List WriteOp → Nat → FS × List FPath × Bool
  | fs, [], _ => (fs, [], true)
  | fs, w :: ws, i =>
    if writeOk i then
      let r := writePhase writeOk (fs.write w.temp w.val) ws (i + 1)
      (r.1, w.temp :: r.2.1, r.2.2)
    else (fs, [], false)

/-- The catch block: unlink every temp file pushed so far. -/
def cleanupTemps (fs : FS) (temps : List FPath) : FS := temps.foldl FS.unlink fs

/-- One iteration of the rename loop: rename temp to final, then
    invalidate the in-memory entries of the touched key (a movie rename
    clears both the movie and the stream entry, as clearMovieCache does). -/
def renameStep (st : CacheState) (w : WriteOp) : CacheState :=
  let st1 : CacheState := { st with fs := st.fs.rename w.temp w.final }
  match w.wkey with
  | WKey.lang l => { st1 with catalogCache := removeA l st1.catalogCache }
  | WKey.movie id =>
    { st1 with movieCache := removeA id st1.movieCache
               streamCache := removeA id st1.streamCache }
  | WKey.stream id => { st1 with streamCache := removeA id st1.streamCache }

/-- setAll from src/cache/file-cache.js: write all temp files, and only
    if every write succeeded rename them all to their final names;
    otherwise delete the temp files created so far and report failure. -/
def setAll (st : CacheState) (writeOk : Nat → Bool) (d : BatchData) : Bool × CacheState :=
  let r := writePhase writeOk st.fs (batchWrites d) 0
  if r.2.2 then (true, (batchWrites d).foldl renameStep { st with fs := r.1 })
  else (false, { st with fs := cleanupTemps r.1 r.2.1 })

/-- clear from src/cache/file-cache.js: unlink every file whose name does
    not end in .tmp in the three directories and drop the in-memory
    caches. -/
def CacheState.clear (st : CacheState) : CacheState :=
  { fs := { st.fs with files := st.fs.files.filter (fun e => e.1.isTmp) }
    catalogCache := []
    movieCache := []
    streamCache := [] }

/-- setAllReplace: clear everything first, then a plain setAll. -/
def setAllReplace (st : CacheState) (writeOk : Nat → Bool) (d : BatchData) : Bool × CacheState :=
  setAll st.clear writeOk d

/-! ## Read-value abstraction and concrete witness states -/

/-- The value component of a read, as a function of the in-memory entry
    and the file entry. -/
def readValue (cached e : Option (FileVal × Nat)) : Option FileVal :=
  match cached, e with
  | some c, some fe => if fe.2 = c.2 then some c.1 else some fe.1
  | some c, none => some c.1
  | none, some fe => some fe.1
  | none, none => none

/-- A concrete pre-state: one cached tamil catalog file. -/
def fsW : FS := FS.mk [(FPath.catFinal "tamil", (FileVal.catalog ["m1"], 0))] 1

def stW : CacheState := CacheState.mk fsW [] [] []

/-- A batch with one movie write. -/
def dW : BatchData := BatchData.mk [] [("m2", "x")] [] []

/-- A batch carrying an empty tamil catalog next to a movie write. -/
def dEmptyCat : BatchData := BatchData.mk [("tamil", [])] [("m2", "x")] [] []

/-- A state whose in-memory caches are populated while no file exists. -/
def stC10 : CacheState := CacheState.mk (FS.mk [] 0)
  [("tamil", (FileVal.catalog ["x"], 5))]
  [("mid", (FileVal.obj "mv", 6))]
  [("sid", (FileVal.obj "sv", 7))]

/-! ## Scrape orchestrator (src/scheduler/scraper-scheduler.js)

The scraper.scrapeAll call is outside the modelled boundary: its outcome
is the scraped parameter, none meaning the scrape (or the validation of
its result) threw. The finally block that restores the running flag is
the explicit false in every exit. runScrape clears the cache before
scraping (the source logs: cache will be cleared first), then commits
with the incremental setAll; a caught error only logs, so the outcome of
a scheduled run is reported, never thrown. triggerFullReplacement
scrapes first, commits with setAllReplace, and rethrows every error. -/

inductive RunOutcome where
  | skipped
  | success
  | failed
deriving DecidableEq

structure SchedState where
  isRunning : Bool
  cache : CacheState
deriving DecidableEq

def runScrape (s : SchedState) (scraped : Option BatchData) (writeOk : Nat → Bool) :
    SchedState × RunOutcome :=
  if s.isRunning then (s, RunOutcome.skipped)
  else
    match scraped with
    | none => (SchedState.mk false s.cache.clear, RunOutcome.failed)
    | some d =>
      if (setAll s.cache.clear writeOk d).1 then
        (SchedState.mk false (setAll s.cache.clear writeOk d).2, RunOutcome.success)
      else
        (SchedState.mk false (setAll s.cache.clear writeOk d).2, RunOutcome.failed)

inductive TrigOutcome where
  | errorRaised
  | success
deriving DecidableEq

def triggerFullReplacement (s : SchedState) (scraped : Option BatchData)
    (writeOk : Nat → Bool) : SchedState × TrigOutcome :=
  if s.isRunning then (s, TrigOutcome.errorRaised)
  else
    match scraped with
    | none => (SchedState.mk false s.cache, TrigOutcome.errorRaised)
    | some d =>
      if (setAllReplace s.cache writeOk d).1 then
        (SchedState.mk false (setAllReplace s.cache writeOk d).2, TrigOutcome.success)
      else
        (SchedState.mk false (setAllReplace s.cache writeOk d).2, TrigOutcome.errorRaised)

/-- The idle scheduler over the one-catalog cache state. -/
def sPre : SchedState := SchedState.mk false stW

/-! ## Theorems -/

set_option maxRecDepth 40000 in

/-- Validation against the RFC 1321 test suite. -/
theorem md5Hex_rfc_empty : md5Hex "" = "d41d8cd98f00b204e9800998ecf8427e" := by decide

set_option maxRecDepth 40000 in

/-- Validation against the RFC 1321 test suite. -/
theorem md5Hex_rfc_abc : md5Hex "abc" = "900150983cd24fb0d6963f7d28e17f72" := by decide

/-! ## Lemmas about the slug: a lowercase alphanumeric language tag survives
at the front of the normalized slug, so ids with different tags differ -/

theorem isSlugChar_ne_dash {c : Char} (h : isSlugChar c = true) : c ≠ '-' := by
  intro hc
  subst hc
  simp [isSlugChar] at h

theorem collapseGo_append_slug (l r : List Char) (h : ∀ c ∈ l, isSlugChar c = true) :
    collapseGo false (l ++ r) = l ++ collapseGo false r := by
  induction l with
  | nil => rfl
  | cons c cs ih =>
    have hc : isSlugChar c = true := h c (List.mem_cons_self c cs)
    have ih' := ih (fun d hd => h d (List.mem_cons_of_mem c hd))
    show collapseGo false (c :: (cs ++ r)) = c :: (cs ++ collapseGo false r)
    simp only [collapseGo, hc, if_true]
    exact congrArg (c :: ·) ih'

theorem dropWhile_append_stop {q : Char → Bool} (l r : List Char)
    (hr : ∀ d ∈ r, q d = false) : List.dropWhile q (l ++ r) = List.dropWhile q l ++ r := by
  induction l with
  | nil =>
    cases r with
    | nil => rfl
    | cons d ds =>
      have := hr d (List.mem_cons_self d ds)
      simp [List.dropWhile, this]
  | cons a l ih =>
    by_cases ha : q a = true
    · simp [List.dropWhile, ha, ih]
    · simp [List.dropWhile, ha]

theorem trimDashes_append_slug (l r : List Char)
    (h : ∀ c ∈ l, isSlugChar c = true) (hne : l ≠ []) :
    trimDashes (l ++ r) = l ++ (List.dropWhile (fun c => c = '-') r.reverse).reverse := by
  unfold trimDashes
  have hhead : List.dropWhile (fun c => c = '-') (l ++ r) = l ++ r := by
    cases l with
    | nil => exact absurd rfl hne
    | cons c cs =>
      have hc := isSlugChar_ne_dash (h c (List.mem_cons_self c cs))
      exact List.dropWhile_cons_of_neg (by simpa using hc)
  rw [hhead, List.reverse_append]
  have hrev : ∀ d ∈ l.reverse, (fun c => decide (c = '-')) d = false := by
    intro d hd
    have := isSlugChar_ne_dash (h d (List.mem_reverse.mp hd))
    simpa using this
  rw [dropWhile_append_stop _ _ hrev]
  simp

theorem movieIdSlug_data (p t : String) (hp : slugSafeTag p) :
    ∃ tail, (movieIdSlug p t).data = p.data ++ tail := by
  obtain ⟨h1, h2, h3⟩ := hp
  unfold movieIdSlug
  have hdata : (p ++ "-" ++ t).data = p.data ++ '-' :: t.data := by
    show (p.data ++ "-".data) ++ t.data = _
    simp
  rw [hdata]
  have hmap : (p.data ++ '-' :: t.data).map Char.toLower
      = p.data ++ '-' :: t.data.map Char.toLower := by
    rw [List.map_append, h2]
    rfl
  rw [hmap, collapseGo_append_slug _ _ h1,
    trimDashes_append_slug _ _ h1 h3]
  exact ⟨_, rfl⟩

theorem generateMovieId_data (t a : String) (ha : slugSafeTag a) :
    ∃ tail, (generateMovieId t [a]).data = a.data ++ tail := by
  obtain ⟨ta, hta⟩ := movieIdSlug_data a t ha
  refine ⟨ta ++ '-' :: (md5Hex8 (movieIdSlug a t)).data, ?_⟩
  rw [generateMovieId]
  have hpre : langPreOf [a] = a := rfl
  rw [hpre, String.data_append, String.data_append, hta]
  simp

theorem generateMovieId_singleton_ne (t a b : String) (k : Nat)
    (ha : slugSafeTag a) (hb : slugSafeTag b)
    (hka : k < a.data.length) (hkb : k < b.data.length)
    (hk : a.data[k]? ≠ b.data[k]?) :
    generateMovieId t [a] ≠ generateMovieId t [b] := by
  obtain ⟨ta, hta⟩ := generateMovieId_data t a ha
  obtain ⟨tb, htb⟩ := generateMovieId_data t b hb
  intro heq
  have hdata := congrArg String.data heq
  rw [hta, htb] at hdata
  have h1 : (a.data ++ ta)[k]? = a.data[k]? := List.getElem?_append_left hka
  have h2 : (b.data ++ tb)[k]? = b.data[k]? := List.getElem?_append_left hkb
  rw [hdata] at h1
  rw [h1] at h2
  exact hk h2

theorem langPreOf_multi (l : List String) (h : 2 ≤ l.length) : langPreOf l = "multi" := by
  match l with
  | [] => simp at h
  | [x] => simp at h
  | x :: y :: rest => rfl

set_option maxRecDepth 100000 in

/-- C3 counterexample: the two language sets containing tamil, telugu and
    tamil, hindi are distinct sets, yet generateMovieId maps the same title
    with either set to the same id string, because every set with two or
    more languages is folded to the same multi tag before hashing. -/
theorem generateMovieId_langset_collision :
    generateMovieId "Movie" ["tamil", "telugu"] = generateMovieId "Movie" ["tamil", "hindi"]
    ∧ "telugu" ∈ ["tamil", "telugu"] ∧ "telugu" ∉ ["tamil", "hindi"] :=
  ⟨rfl, by decide, by decide⟩

/-- C3 (amended): generateMovieId is deterministic (a pure function of its
    arguments); for one and the same title, any two language sets with at
    least two elements yield the identical id (so distinct multi-language
    sets collide, refuting the distinctness half of the claim as stated),
    while any two distinct singleton sets drawn from the six supported
    language tags yield distinct ids. -/
theorem generateMovieId_identity (t : String) (l1 l2 : List String) (a b : String)
    (h1 : 2 ≤ l1.length) (h2 : 2 ≤ l2.length)
    (ha : a ∈ supportedLangs) (hb : b ∈ supportedLangs) (hab : a ≠ b) :
    generateMovieId t l1 = generateMovieId t l1
    ∧ generateMovieId t l1 = generateMovieId t l2
    ∧ generateMovieId t [a] ≠ generateMovieId t [b] := by
  refine ⟨rfl, ?_, ?_⟩
  · rw [generateMovieId, generateMovieId, langPreOf_multi l1 h1, langPreOf_multi l2 h2]
  · fin_cases ha <;> fin_cases hb <;>
      first
        | exact absurd rfl hab
        | exact generateMovieId_singleton_ne t _ _ 0 (by decide) (by decide) (by decide)
            (by decide) (by decide)
        | exact generateMovieId_singleton_ne t _ _ 1 (by decide) (by decide) (by decide)
            (by decide) (by decide)

set_option maxRecDepth 100000 in

/-- C3 witness: the amended theorem applied at concrete inputs. -/
theorem generateMovieId_identity_witness :
    generateMovieId "Movie" ["tamil", "telugu"] = generateMovieId "Movie" ["hindi", "kannada"]
    ∧ generateMovieId "Movie" ["tamil"] ≠ generateMovieId "Movie" ["telugu"] := by
  have h := generateMovieId_identity "Movie" ["tamil", "telugu"] ["hindi", "kannada"]
    "tamil" "telugu" (by decide) (by decide) (by decide) (by decide) (by decide)
  exact ⟨h.2.1, h.2.2⟩

/-- C6 counterexample: on the spec's example magnet, extractInfoHash of
    src/utils/constants.js returns the capture in its original uppercase,
    not the lowercased 40-hex string the claim asserts. -/
theorem extractInfoHash_case_preserved :
    extractInfoHash specMagnet = some "ABCDEF0123456789ABCDEF0123456789ABCDEF01"
    ∧ extractInfoHash specMagnet ≠ some "abcdef0123456789abcdef0123456789abcdef01"
    ∧ lowerStr "ABCDEF0123456789ABCDEF0123456789ABCDEF01"
      = "abcdef0123456789abcdef0123456789abcdef01" := by
  refine ⟨by decide, by decide, by decide⟩

/-- C6 (amended): on the spec's example magnet the pipeline extractor of
    constants.js returns the 40-hex info-hash exactly as written in the
    URI (uppercase preserved); the torbox-client variant of the extractor
    is the one that lowercases; and quality classification of the display
    name Movie.2024.1080p yields 1080p. -/
theorem magnet_parsing_example :
    extractInfoHash specMagnet = some "ABCDEF0123456789ABCDEF0123456789ABCDEF01"
    ∧ torboxExtractInfoHash specMagnet = some "abcdef0123456789abcdef0123456789abcdef01"
    ∧ (extractStreamDetailsFromMagnet specMagnet).map StreamDetails.quality
      = some (some "1080p")
    ∧ extractQualityFromMagnetText "Movie.2024.1080p" = "1080p" := by
  refine ⟨by decide, by decide, by decide, by decide⟩

/-- C8 counterexample: a display name containing none of the quality
    tokens is classified with quality some 1080p, a guessed default, not
    an unset field as the claim asserts. -/
theorem quality_default_not_unset :
    (streamDetailsOfName "Movie.2024.x265").quality = some "1080p"
    ∧ ¬ (streamDetailsOfName "Movie.2024.x265").quality = none
    ∧ strContains (upperStr "Movie.2024.x265") "4K" = false
    ∧ strContains (upperStr "Movie.2024.x265") "2160P" = false
    ∧ strContains (upperStr "Movie.2024.x265") "UHD" = false
    ∧ strContains (upperStr "Movie.2024.x265") "1080P" = false
    ∧ strContains (upperStr "Movie.2024.x265") "FULL HD" = false
    ∧ strContains (upperStr "Movie.2024.x265") "720P" = false
    ∧ strContains (upperStr "Movie.2024.x265") "HD" = false
    ∧ strContains (upperStr "Movie.2024.x265") "480P" = false
    ∧ extractQualityFromMagnetText "Movie.2024.x265" = "1080p" := by decide

/-- C8 (amended): quality classification of a magnet display name matches
    in priority order 4K/2160p/UHD over 1080p/FULL HD over 720p/HD over
    480p; codec classification matches HEVC/H.265/X265 over
    AVC/H.264/X264; source classification matches TRUE WEB-DL over
    WEB-DL/WEBDL over HDRip over BluRay over DVDRip; description text is
    classified with the same quality priority; codec and source fields
    are left unset when no token of theirs matches; the quality field
    however is never left unset: with no quality token it defaults to
    1080p, for display names and description text alike. -/
theorem streamDetails_priority (name text : String) :
    ((strContains (upperStr name) "4K" = true ∨ strContains (upperStr name) "2160P" = true
        ∨ strContains (upperStr name) "UHD" = true) →
      (streamDetailsOfName name).quality = some "4K")
    ∧ (strContains (upperStr name) "4K" = false → strContains (upperStr name) "2160P" = false →
        strContains (upperStr name) "UHD" = false →
        (strContains (upperStr name) "1080P" = true
          ∨ strContains (upperStr name) "FULL HD" = true) →
        (streamDetailsOfName name).quality = some "1080p")
    ∧ (strContains (upperStr name) "4K" = false → strContains (upperStr name) "2160P" = false →
        strContains (upperStr name) "UHD" = false → strContains (upperStr name) "1080P" = false →
        strContains (upperStr name) "FULL HD" = false →
        (strContains (upperStr name) "720P" = true ∨ strContains (upperStr name) "HD" = true) →
        (streamDetailsOfName name).quality = some "720p")
    ∧ (strContains (upperStr name) "4K" = false → strContains (upperStr name) "2160P" = false →
        strContains (upperStr name) "UHD" = false → strContains (upperStr name) "1080P" = false →
        strContains (upperStr name) "FULL HD" = false → strContains (upperStr name) "720P" = false →
        strContains (upperStr name) "HD" = false → strContains (upperStr name) "480P" = true →
        (streamDetailsOfName name).quality = some "480p")
    ∧ (strContains (upperStr name) "4K" = false → strContains (upperStr name) "2160P" = false →
        strContains (upperStr name) "UHD" = false → strContains (upperStr name) "1080P" = false →
        strContains (upperStr name) "FULL HD" = false → strContains (upperStr name) "720P" = false →
        strContains (upperStr name) "HD" = false → strContains (upperStr name) "480P" = false →
        (streamDetailsOfName name).quality = some "1080p")
    ∧ ((strContains (upperStr name) "HEVC" = true ∨ strContains (upperStr name) "H.265" = true
        ∨ strContains (upperStr name) "X265" = true) →
        (streamDetailsOfName name).codec = some "HEVC")
    ∧ (strContains (upperStr name) "HEVC" = false → strContains (upperStr name) "H.265" = false →
        strContains (upperStr name) "X265" = false → strContains (upperStr name) "AVC" = false →
        strContains (upperStr name) "H.264" = false → strContains (upperStr name) "X264" = false →
        (streamDetailsOfName name).codec = none)
    ∧ (strContains (upperStr name) "TRUE WEB-DL" = false →
        strContains (upperStr name) "TRUE WEBDL" = false →
        strContains (upperStr name) "WEB-DL" = false → strContains (upperStr name) "WEBDL" = false →
        strContains (upperStr name) "HDRIP" = false → strContains (upperStr name) "HD RIP" = false →
        strContains (upperStr name) "BLURAY" = false →
        strContains (upperStr name) "BLU-RAY" = false →
        strContains (upperStr name) "DVDRIP" = false →
        (streamDetailsOfName name).source = none)
    ∧ ((strContains (upperStr text) "4K" = true ∨ strContains (upperStr text) "2160P" = true
        ∨ strContains (upperStr text) "UHD" = true) →
        extractQualityFromMagnetText text = "4K")
    ∧ (strContains (upperStr text) "4K" = false → strContains (upperStr text) "2160P" = false →
        strContains (upperStr text) "UHD" = false → strContains (upperStr text) "1080P" = false →
        strContains (upperStr text) "FULL HD" = false → strContains (upperStr text) "720P" = false →
        strContains (upperStr text) "HD" = false → strContains (upperStr text) "480P" = false →
        extractQualityFromMagnetText text = "1080p")
    ∧ ((strContains (upperStr name) "TRUE WEB-DL" = true
        ∨ strContains (upperStr name) "TRUE WEBDL" = true) →
        (streamDetailsOfName name).source = some "WEB-DL")
    ∧ (strContains (upperStr name) "TRUE WEB-DL" = false →
        strContains (upperStr name) "TRUE WEBDL" = false →
        (strContains (upperStr name) "WEB-DL" = true
          ∨ strContains (upperStr name) "WEBDL" = true) →
        (streamDetailsOfName name).source = some "WEB-DL")
    ∧ (strContains (upperStr name) "TRUE WEB-DL" = false →
        strContains (upperStr name) "TRUE WEBDL" = false →
        strContains (upperStr name) "WEB-DL" = false → strContains (upperStr name) "WEBDL" = false →
        (strContains (upperStr name) "HDRIP" = true
          ∨ strContains (upperStr name) "HD RIP" = true) →
        (streamDetailsOfName name).source = some "HDRip")
    ∧ (strContains (upperStr name) "TRUE WEB-DL" = false →
        strContains (upperStr name) "TRUE WEBDL" = false →
        strContains (upperStr name) "WEB-DL" = false → strContains (upperStr name) "WEBDL" = false →
        strContains (upperStr name) "HDRIP" = false → strContains (upperStr name) "HD RIP" = false →
        (strContains (upperStr name) "BLURAY" = true
          ∨ strContains (upperStr name) "BLU-RAY" = true) →
        (streamDetailsOfName name).source = some "BluRay")
    ∧ (strContains (upperStr name) "TRUE WEB-DL" = false →
        strContains (upperStr name) "TRUE WEBDL" = false →
        strContains (upperStr name) "WEB-DL" = false → strContains (upperStr name) "WEBDL" = false →
        strContains (upperStr name) "HDRIP" = false → strContains (upperStr name) "HD RIP" = false →
        strContains (upperStr name) "BLURAY" = false →
        strContains (upperStr name) "BLU-RAY" = false →
        strContains (upperStr name) "DVDRIP" = true →
        (streamDetailsOfName name).source = some "DVDRip")
    ∧ (strContains (upperStr name) "HEVC" = false → strContains (upperStr name) "H.265" = false →
        strContains (upperStr name) "X265" = false →
        (strContains (upperStr name) "AVC" = true ∨ strContains (upperStr name) "H.264" = true
          ∨ strContains (upperStr name) "X264" = true) →
        (streamDetailsOfName name).codec = some "AVC")
    ∧ (strContains (upperStr text) "4K" = false → strContains (upperStr text) "2160P" = false →
        strContains (upperStr text) "UHD" = false →
        (strContains (upperStr text) "1080P" = true
          ∨ strContains (upperStr text) "FULL HD" = true) →
        extractQualityFromMagnetText text = "1080p")
    ∧ (strContains (upperStr text) "4K" = false → strContains (upperStr text) "2160P" = false →
        strContains (upperStr text) "UHD" = false → strContains (upperStr text) "1080P" = false →
        strContains (upperStr text) "FULL HD" = false →
        (strContains (upperStr text) "720P" = true ∨ strContains (upperStr text) "HD" = true) →
        extractQualityFromMagnetText text = "720p")
    ∧ (strContains (upperStr text) "4K" = false → strContains (upperStr text) "2160P" = false →
        strContains (upperStr text) "UHD" = false → strContains (upperStr text) "1080P" = false →
        strContains (upperStr text) "FULL HD" = false → strContains (upperStr text) "720P" = false →
        strContains (upperStr text) "HD" = false → strContains (upperStr text) "480P" = true →
        extractQualityFromMagnetText text = "480p") := by
  have hq : (streamDetailsOfName name).quality = qualityOfUpper (upperStr name) := rfl
  have hc : (streamDetailsOfName name).codec = codecOfUpper (upperStr name) := rfl
  have hs : (streamDetailsOfName name).source = sourceOfUpper (upperStr name) := rfl
  refine ⟨?_, ?_, ?_, ?_, ?_, ?_, ?_, ?_, ?_, ?_, ?_, ?_, ?_, ?_, ?_, ?_, ?_, ?_, ?_⟩
  · intro h
    rcases h with h | h | h <;> simp [hq, qualityOfUpper, h]
  · intro h1 h2 h3 h
    rcases h with h | h <;> simp [hq, qualityOfUpper, h1, h2, h3, h]
  · intro h1 h2 h3 h4 h5 h
    rcases h with h | h <;> simp [hq, qualityOfUpper, h1, h2, h3, h4, h5, h]
  · intro h1 h2 h3 h4 h5 h6 h7 h
    simp [hq, qualityOfUpper, h1, h2, h3, h4, h5, h6, h7, h]
  · intro h1 h2 h3 h4 h5 h6 h7 h8
    simp [hq, qualityOfUpper, h1, h2, h3, h4, h5, h6, h7, h8]
  · intro h
    rcases h with h | h | h <;> simp [hc, codecOfUpper, h]
  · intro h1 h2 h3 h4 h5 h6
    simp [hc, codecOfUpper, h1, h2, h3, h4, h5, h6]
  · intro h1 h2 h3 h4 h5 h6 h7 h8 h9
    simp [hs, sourceOfUpper, h1, h2, h3, h4, h5, h6, h7, h8, h9]
  · intro h
    rcases h with h | h | h <;> simp [extractQualityFromMagnetText, h]
  · intro h1 h2 h3 h4 h5 h6 h7 h8
    simp [extractQualityFromMagnetText, h1, h2, h3, h4, h5, h6, h7, h8]
  · intro h
    rcases h with h | h <;> simp [hs, sourceOfUpper, h]
  · intro h1 h2 h
    rcases h with h | h <;> simp [hs, sourceOfUpper, h1, h2, h]
  · intro h1 h2 h3 h4 h
    rcases h with h | h <;> simp [hs, sourceOfUpper, h1, h2, h3, h4, h]
  · intro h1 h2 h3 h4 h5 h6 h
    rcases h with h | h <;> simp [hs, sourceOfUpper, h1, h2, h3, h4, h5, h6, h]
  · intro h1 h2 h3 h4 h5 h6 h7 h8 h9
    simp [hs, sourceOfUpper, h1, h2, h3, h4, h5, h6, h7, h8, h9]
  · intro h1 h2 h3 h
    rcases h with h | h | h <;> simp [hc, codecOfUpper, h1, h2, h3, h]
  · intro h1 h2 h3 h
    rcases h with h | h <;> simp [extractQualityFromMagnetText, h1, h2, h3, h]
  · intro h1 h2 h3 h4 h5 h
    rcases h with h | h <;> simp [extractQualityFromMagnetText, h1, h2, h3, h4, h5, h]
  · intro h1 h2 h3 h4 h5 h6 h7 h8
    simp [extractQualityFromMagnetText, h1, h2, h3, h4, h5, h6, h7, h8]

/-- C8 witness: the amended theorem applied at concrete display names and
    description texts exercising every classified family. -/
theorem streamDetails_priority_witness :
    (streamDetailsOfName "Film.x222").quality = some "1080p"
    ∧ (streamDetailsOfName "Film.HEVC.1080p").quality = some "1080p"
    ∧ (streamDetailsOfName "Film.HEVC.1080p").codec = some "HEVC"
    ∧ extractQualityFromMagnetText "Clip.4K" = "4K"
    ∧ (streamDetailsOfName "Film.WEB-DL.AVC").source = some "WEB-DL"
    ∧ (streamDetailsOfName "Film.WEB-DL.AVC").codec = some "AVC"
    ∧ (streamDetailsOfName "Movie.BluRay.x222").source = some "BluRay"
    ∧ extractQualityFromMagnetText "Clip.1080p" = "1080p"
    ∧ extractQualityFromMagnetText "Desc.480p" = "480p" := by
  obtain ⟨-, -, -, -, qdef1, -, -, -, t4k1, -, -, -, -, -, -, -, -, -, -⟩ :=
    streamDetails_priority "Film.x222" "Clip.4K"
  obtain ⟨-, q1080b, -, -, -, chevc2, -, -, -, -, -, -, -, -, -, -, -, -, -⟩ :=
    streamDetails_priority "Film.HEVC.1080p" "Clip.4K"
  obtain ⟨-, -, -, -, -, -, -, -, -, -, -, sweb3, -, -, -, cavc3, t1080c, -, -⟩ :=
    streamDetails_priority "Film.WEB-DL.AVC" "Clip.1080p"
  obtain ⟨-, -, -, -, -, -, -, -, -, -, -, -, -, sblu4, -, -, -, -, t480d⟩ :=
    streamDetails_priority "Movie.BluRay.x222" "Desc.480p"
  refine ⟨?_, ?_, ?_, ?_, ?_, ?_, ?_, ?_, ?_⟩
  · exact qdef1 (by decide) (by decide) (by decide) (by decide) (by decide) (by decide)
      (by decide) (by decide)
  · exact q1080b (by decide) (by decide) (by decide) (Or.inl (by decide))
  · exact chevc2 (Or.inl (by decide))
  · exact t4k1 (Or.inl (by decide))
  · exact sweb3 (by decide) (by decide) (Or.inl (by decide))
  · exact cavc3 (by decide) (by decide) (by decide) (Or.inl (by decide))
  · exact sblu4 (by decide) (by decide) (by decide) (by decide) (by decide) (by decide)
      (Or.inl (by decide))
  · exact t1080c (by decide) (by decide) (by decide) (Or.inl (by decide))
  · exact t480d (by decide) (by decide) (by decide) (by decide) (by decide) (by decide)
      (by decide) (by decide)


/-- C7: the spec's round-trip classification examples: the series title is
    recognised with season 2 and episodes 1..6, and the language list
    detects exactly tamil, telugu, hindi. -/
theorem roundtrip_classification :
    detectSeriesFromTitle "Show Name (2024) S02 EP(01-06)"
      = { isSeries := true, season := some 2, episodes := [1, 2, 3, 4, 5, 6] }
    ∧ detectLanguagesFromTitle "Movie (Tamil + Telugu + Hindi)"
      = ["tamil", "telugu", "hindi"] := by
  refine ⟨by decide, by decide⟩

set_option maxRecDepth 100000 in

/-- C9 counterexample: the non-empty input HQ consists of one technical
    term; the technical-term strip empties the minimally-cleaned string
    itself, so the fallback is also empty and the function returns the
    empty string on a non-empty input. -/
theorem cleanTitle_empty_on_nonempty :
    cleanTitleForDisplay "HQ" = "" ∧ "HQ" ≠ "" ∧ cleanedStage "HQ" = [] := by
  refine ⟨by decide, by decide, by decide⟩

/-- C9 (amended): the display-title cleaner falls back to the minimally
    cleaned string whenever year and language stripping empties the
    result, so the final result is non-empty whenever the minimally
    cleaned intermediate (trim, whitespace collapse, bracket and
    technical-term noise removal) is non-empty; an input that is only
    whitespace or technical terms still yields the empty string. -/
theorem mk_ne_empty (l : List Char) (h : l ≠ []) : String.mk l ≠ "" := by
  intro he
  exact h (congrArg String.data he)

theorem cleanTitle_fallback (title : String) (h : cleanedStage title ≠ []) :
    cleanTitleForDisplay title ≠ "" := by
  have hne : title ≠ "" := by
    intro he
    apply h
    rw [he]
    decide
  rw [cleanTitleForDisplay, if_neg hne]
  cases hn : (nameOnlyStage (cleanedStage title)).isEmpty with
  | false =>
    simp only [Bool.false_eq_true, if_false]
    apply mk_ne_empty
    intro hd
    rw [hd] at hn
    simp at hn
  | true =>
    rw [if_pos rfl]
    exact mk_ne_empty _ h

set_option maxRecDepth 100000 in

/-- C9 witness: the amended theorem applied at a concrete title. -/
theorem cleanTitle_fallback_witness :
    cleanedStage "Movie (2024) Tamil" ≠ [] ∧ cleanTitleForDisplay "Movie (2024) Tamil" ≠ "" :=
  ⟨by decide, cleanTitle_fallback "Movie (2024) Tamil" (by decide)⟩

/-! ## Association list and filesystem lemmas -/

theorem lookupA_removeA {κ α : Type} [DecidableEq κ] (k k' : κ) (l : List (κ × α)) :
    lookupA k' (removeA k l) = if k' = k then none else lookupA k' l := by
  induction l with
  | nil => simp [removeA, lookupA]
  | cons e rest ih =>
    by_cases he : e.1 = k <;> by_cases hk : k' = k <;> by_cases hek : e.1 = k' <;>
      simp_all [removeA, lookupA]

theorem lookupA_insertA {κ α : Type} [DecidableEq κ] (k k' : κ) (a : α) (l : List (κ × α)) :
    lookupA k' (insertA k a l) = if k' = k then some a else lookupA k' l := by
  simp only [insertA, lookupA]
  by_cases hk : k = k'
  · rw [if_pos hk, if_pos hk.symm]
  · rw [if_neg hk, if_neg (fun h => hk h.symm), lookupA_removeA,
      if_neg (fun h => hk h.symm)]

theorem FS.entry_write (fs : FS) (p q : FPath) (v : FileVal) :
    (fs.write p v).entry q = if q = p then some (v, fs.clock) else fs.entry q := by
  simp only [FS.write, FS.entry, lookupA_insertA]

theorem FS.entry_unlink (fs : FS) (p q : FPath) :
    (fs.unlink p).entry q = if q = p then none else fs.entry q := by
  simp only [FS.unlink, FS.entry, lookupA_removeA]

theorem FS.entry_rename_other (fs : FS) (src dst q : FPath) (h1 : q ≠ src) (h2 : q ≠ dst) :
    (fs.rename src dst).entry q = fs.entry q := by
  unfold FS.rename
  cases h : lookupA src fs.files with
  | none => rfl
  | some e =>
    simp only [FS.entry, lookupA_insertA, lookupA_removeA, if_neg h2, if_neg h1]

/-! ## Write-phase, cleanup and rename lemmas -/

theorem writePhase_fail (writeOk : Nat → Bool) (fs : FS) (ws : List WriteOp) (start : Nat)
    (h : ∃ i, i < ws.length ∧ writeOk (start + i) = false) :
    (writePhase writeOk fs ws start).2.2 = false := by
  induction ws generalizing fs start with
  | nil => obtain ⟨i, hi, _⟩ := h; simp at hi
  | cons w ws ih =>
    obtain ⟨i, hi, hok⟩ := h
    simp only [writePhase]
    cases h0 : writeOk start with
    | true =>
      simp only [if_true]
      cases i with
      | zero => rw [Nat.add_zero, h0] at hok; exact absurd hok (by simp)
      | succ j =>
        refine ih _ _ ⟨j, by simpa using hi, ?_⟩
        have harith : start + 1 + j = start + (j + 1) := by omega
        rw [harith]
        exact hok
    | false => simp

theorem writePhase_entry (writeOk : Nat → Bool) (fs : FS) (ws : List WriteOp) (start : Nat)
    (p : FPath) (h : ∀ w ∈ ws, w.temp ≠ p) :
    ((writePhase writeOk fs ws start).1).entry p = fs.entry p := by
  induction ws generalizing fs start with
  | nil => rfl
  | cons w ws ih =>
    simp only [writePhase]
    cases h0 : writeOk start with
    | true =>
      simp only [if_true]
      rw [ih (fs.write w.temp w.val) (start + 1) (fun w' hw' => h w' (List.mem_cons_of_mem w hw')),
        FS.entry_write, if_neg (fun hp => h w (List.mem_cons_self w ws) hp.symm)]
    | false => simp

theorem writePhase_temps (writeOk : Nat → Bool) (fs : FS) (ws : List WriteOp) (start : Nat) :
    ∀ t ∈ (writePhase writeOk fs ws start).2.1, t ∈ ws.map (fun w => w.temp) := by
  induction ws generalizing fs start with
  | nil => intro t ht; simp [writePhase] at ht
  | cons w ws ih =>
    intro t ht
    simp only [writePhase] at ht
    cases h0 : writeOk start with
    | true =>
      rw [h0, if_pos rfl] at ht
      simp only [List.map_cons, List.mem_cons]
      rcases List.mem_cons.mp ht with rfl | h'
      · exact Or.inl rfl
      · exact Or.inr (ih _ _ t h')
    | false =>
      rw [h0, if_neg (by simp)] at ht
      simp at ht

theorem cleanupTemps_entry (temps : List FPath) (fs : FS) (p : FPath) :
    (cleanupTemps fs temps).entry p = if p ∈ temps then none else fs.entry p := by
  induction temps generalizing fs with
  | nil => simp [cleanupTemps]
  | cons t ts ih =>
    show (cleanupTemps (fs.unlink t) ts).entry p = _
    rw [ih]
    by_cases hp : p ∈ ts
    · simp [hp]
    · rw [if_neg hp, FS.entry_unlink]
      by_cases hpt : p = t
      · simp [hpt]
      · rw [if_neg hpt, if_neg (by simp [List.mem_cons, hpt, hp])]

theorem batchWrites_temp_isTmp (d : BatchData) : ∀ w ∈ batchWrites d, w.temp.isTmp = true := by
  intro w hw
  simp only [batchWrites, List.mem_append, List.mem_map, List.mem_filter] at hw
  rcases hw with ((⟨c, _, rfl⟩ | ⟨m, _, rfl⟩) | ⟨m, _, rfl⟩) | ⟨m, _, rfl⟩ <;> rfl

theorem readThrough_fst (mem : Mem) (key : String) (e : Option (FileVal × Nat)) :
    (readThrough mem key e).1 = readValue (lookupA key mem) e := by
  rcases hl : lookupA key mem with _ | c <;> rcases he : e with _ | fe <;>
    simp only [readThrough, readValue, hl, he]
  split <;> rfl

theorem getCatalog_fst (st : CacheState) (lang : String) :
    (getCatalog st lang).1
      = readValue (lookupA lang st.catalogCache) (st.fs.entry (FPath.catFinal lang)) :=
  readThrough_fst _ _ _

theorem getMovie_fst (st : CacheState) (id : String) :
    (getMovie st id).1
      = readValue (lookupA id st.movieCache) (st.fs.entry (FPath.movFinal id)) :=
  readThrough_fst _ _ _

theorem getStreams_fst (st : CacheState) (id : String) :
    (getStreams st id).1
      = readValue (lookupA id st.streamCache) (st.fs.entry (FPath.strFinal id)) :=
  readThrough_fst _ _ _

theorem setAll_fst (st : CacheState) (writeOk : Nat → Bool) (d : BatchData) :
    (setAll st writeOk d).1 = (writePhase writeOk st.fs (batchWrites d) 0).2.2 := by
  unfold setAll
  cases h : (writePhase writeOk st.fs (batchWrites d) 0).2.2 <;> simp [h]

theorem setAll_fail_state (st : CacheState) (writeOk : Nat → Bool) (d : BatchData)
    (hb : (writePhase writeOk st.fs (batchWrites d) 0).2.2 = false) :
    setAll st writeOk d
      = (false, CacheState.mk
          (cleanupTemps (writePhase writeOk st.fs (batchWrites d) 0).1
            (writePhase writeOk st.fs (batchWrites d) 0).2.1)
          st.catalogCache st.movieCache st.streamCache) := by
  simp [setAll, hb]

theorem setAll_success_state (st : CacheState) (writeOk : Nat → Bool) (d : BatchData)
    (hb : (writePhase writeOk st.fs (batchWrites d) 0).2.2 = true) :
    setAll st writeOk d
      = (true, (batchWrites d).foldl renameStep
          { st with fs := (writePhase writeOk st.fs (batchWrites d) 0).1 }) := by
  simp [setAll, hb]

/-- After a failed setAll the in-memory caches are untouched and every
    non-temporary file entry is exactly as before the call. -/
theorem setAll_fail_preserved (st : CacheState) (writeOk : Nat → Bool) (d : BatchData)
    (hb : (writePhase writeOk st.fs (batchWrites d) 0).2.2 = false) :
    ((setAll st writeOk d).2).catalogCache = st.catalogCache
    ∧ ((setAll st writeOk d).2).movieCache = st.movieCache
    ∧ ((setAll st writeOk d).2).streamCache = st.streamCache
    ∧ ∀ p : FPath, p.isTmp = false → ((setAll st writeOk d).2).fs.entry p = st.fs.entry p := by
  rw [setAll_fail_state st writeOk d hb]
  refine ⟨rfl, rfl, rfl, ?_⟩
  intro p hp
  have hmem : p ∉ (writePhase writeOk st.fs (batchWrites d) 0).2.1 := by
    intro hmem
    obtain ⟨w, hw, hwp⟩ := List.mem_map.mp
      (writePhase_temps writeOk st.fs (batchWrites d) 0 p hmem)
    have hT := batchWrites_temp_isTmp d w hw
    rw [hwp, hp] at hT
    exact absurd hT (by simp)
  show (cleanupTemps (writePhase writeOk st.fs (batchWrites d) 0).1
      (writePhase writeOk st.fs (batchWrites d) 0).2.1).entry p = _
  rw [cleanupTemps_entry, if_neg hmem]
  exact writePhase_entry writeOk st.fs (batchWrites d) 0 p (fun w hw hwp => by
    have hT := batchWrites_temp_isTmp d w hw
    rw [hwp, hp] at hT
    exact absurd hT (by simp))

/-! ## Clear lemmas -/

theorem lookupA_filter_tmp (p : FPath) (l : List (FPath × (FileVal × Nat)))
    (hp : p.isTmp = false) : lookupA p (l.filter (fun e => e.1.isTmp)) = none := by
  induction l with
  | nil => rfl
  | cons e rest ih =>
    by_cases he : e.1.isTmp = true
    · simp only [List.filter_cons]
      rw [if_pos (by simpa using he)]
      simp only [lookupA]
      rw [if_neg (fun h : e.1 = p => by rw [h, hp] at he; exact absurd he (by simp))]
      exact ih
    · simp only [List.filter_cons]
      rw [if_neg (by simpa using he)]
      exact ih

theorem clear_entry (st : CacheState) (p : FPath) (hp : p.isTmp = false) :
    st.clear.fs.entry p = none :=
  lookupA_filter_tmp p st.fs.files hp

theorem getCatalog_clear (st : CacheState) (lang : String) :
    (getCatalog st.clear lang).1 = none := by
  rw [getCatalog_fst, clear_entry st (FPath.catFinal lang) rfl]
  rfl

theorem getMovie_clear (st : CacheState) (id : String) : (getMovie st.clear id).1 = none := by
  rw [getMovie_fst, clear_entry st (FPath.movFinal id) rfl]
  rfl

theorem getStreams_clear (st : CacheState) (id : String) :
    (getStreams st.clear id).1 = none := by
  rw [getStreams_fst, clear_entry st (FPath.strFinal id) rfl]
  rfl

/-! ## Rename-phase preservation -/

theorem renames_preserve (ws : List WriteOp) (s : CacheState) (p : FPath) (lang : String)
    (h : ∀ w ∈ ws, w.temp ≠ p ∧ w.final ≠ p ∧ ∀ l', w.wkey = WKey.lang l' → l' ≠ lang) :
    ((ws.foldl renameStep s).fs.entry p = s.fs.entry p)
    ∧ lookupA lang (ws.foldl renameStep s).catalogCache = lookupA lang s.catalogCache := by
  induction ws generalizing s with
  | nil => exact ⟨rfl, rfl⟩
  | cons w ws ih =>
    obtain ⟨ht, hf, hk⟩ := h w (List.mem_cons_self w ws)
    have hrest := fun w' hw' => h w' (List.mem_cons_of_mem w hw')
    have hstep_fs : (renameStep s w).fs.entry p = s.fs.entry p := by
      cases w with
      | mk temp final val wkey =>
        cases wkey <;>
          exact FS.entry_rename_other s.fs temp final p
            (fun he => ht he.symm) (fun he => hf he.symm)
    have hstep_cc :
        lookupA lang (renameStep s w).catalogCache = lookupA lang s.catalogCache := by
      cases w with
      | mk temp final val wkey =>
        cases wkey with
        | lang l' =>
          show lookupA lang (removeA l' s.catalogCache) = _
          rw [lookupA_removeA, if_neg (fun he => hk l' rfl he.symm)]
        | movie id => rfl
        | stream id => rfl
    have hih := ih (renameStep s w) hrest
    simp only [List.foldl_cons]
    exact ⟨hih.1.trans hstep_fs, hih.2.trans hstep_cc⟩

theorem batchWrites_avoid_catalog (d : BatchData) (lang : String)
    (hempty : ∀ c, (lang, c) ∈ d.catalogs → c = []) :
    ∀ w ∈ batchWrites d, w.temp ≠ FPath.catFinal lang ∧ w.final ≠ FPath.catFinal lang
      ∧ ∀ l', w.wkey = WKey.lang l' → l' ≠ lang := by
  intro w hw
  simp only [batchWrites, List.mem_append, List.mem_map, List.mem_filter] at hw
  rcases hw with ((⟨c, hc, rfl⟩ | ⟨m, _, rfl⟩) | ⟨m, _, rfl⟩) | ⟨m, _, rfl⟩
  · have hlang : c.1 ≠ lang := by
      intro hl
      have hmem : (lang, c.2) ∈ d.catalogs := by
        rw [← hl]
        exact hc.1
      have hcEmpty := hempty c.2 hmem
      rw [hcEmpty] at hc
      simp at hc
    refine ⟨by simp, ?_, ?_⟩
    · intro he
      exact hlang (by injection he)
    · intro l' hw' he
      have : l' = c.1 := by injection hw' with h; exact h.symm
      rw [this] at he
      exact hlang he
  · exact ⟨by simp, by simp, fun l' hw' => by simp at hw'⟩
  · exact ⟨by simp, by simp, fun l' hw' => by simp at hw'⟩
  · exact ⟨by simp, by simp, fun l' hw' => by simp at hw'⟩

/-- C1: if any temp-file write of a setAll batch fails partway through,
    the call returns failure, every temp file created so far is deleted,
    no final cache file (no non-temporary path) is modified, the
    in-memory caches are untouched, and a subsequent read of every key
    of all three families returns exactly its pre-batch value. -/
theorem setAll_write_failure (st : CacheState) (d : BatchData) (writeOk : Nat → Bool)
    (hfail : ∃ i, i < (batchWrites d).length ∧ writeOk i = false) :
    (setAll st writeOk d).1 = false
    ∧ (∀ p : FPath, p.isTmp = false → ((setAll st writeOk d).2).fs.entry p = st.fs.entry p)
    ∧ ((setAll st writeOk d).2).catalogCache = st.catalogCache
    ∧ ((setAll st writeOk d).2).movieCache = st.movieCache
    ∧ ((setAll st writeOk d).2).streamCache = st.streamCache
    ∧ (∀ t ∈ (writePhase writeOk st.fs (batchWrites d) 0).2.1,
        ((setAll st writeOk d).2).fs.entry t = none)
    ∧ (∀ lang, (getCatalog ((setAll st writeOk d).2) lang).1 = (getCatalog st lang).1)
    ∧ (∀ id, (getMovie ((setAll st writeOk d).2) id).1 = (getMovie st id).1)
    ∧ (∀ id, (getStreams ((setAll st writeOk d).2) id).1 = (getStreams st id).1) := by
  have hb : (writePhase writeOk st.fs (batchWrites d) 0).2.2 = false := by
    apply writePhase_fail
    obtain ⟨i, hi, hok⟩ := hfail
    exact ⟨i, hi, by simpa using hok⟩
  obtain ⟨hc, hm, hs, hfs⟩ := setAll_fail_preserved st writeOk d hb
  refine ⟨by rw [setAll_fst]; exact hb, hfs, hc, hm, hs, ?_, ?_, ?_, ?_⟩
  · intro t htmem
    rw [setAll_fail_state st writeOk d hb]
    show (cleanupTemps (writePhase writeOk st.fs (batchWrites d) 0).1
      (writePhase writeOk st.fs (batchWrites d) 0).2.1).entry t = none
    rw [cleanupTemps_entry, if_pos htmem]
  · intro lang
    rw [getCatalog_fst, getCatalog_fst, hc, hfs (FPath.catFinal lang) rfl]
  · intro id
    rw [getMovie_fst, getMovie_fst, hm, hfs (FPath.movFinal id) rfl]
  · intro id
    rw [getStreams_fst, getStreams_fst, hs, hfs (FPath.strFinal id) rfl]

/-- C1 witness: the atomic-commit theorem applied to a batch whose only
    write fails. -/
theorem setAll_write_failure_witness :
    (setAll stW (fun _ => false) dW).1 = false
    ∧ (getCatalog ((setAll stW (fun _ => false) dW).2) "tamil").1
      = (getCatalog stW "tamil").1 := by
  have h := setAll_write_failure stW dW (fun _ => false) ⟨0, by decide, rfl⟩
  exact ⟨h.1, h.2.2.2.2.2.2.1 "tamil"⟩

/-- C4: a batch whose catalog entry for a language is an empty sequence
    never touches that language's catalog: the on-disk entry, the
    in-memory entry and the read result for that language are unchanged
    by setAll, whether the batch commits or fails. -/
theorem setAll_skips_empty_catalog (st : CacheState) (writeOk : Nat → Bool) (d : BatchData)
    (lang : String) (hempty : ∀ c, (lang, c) ∈ d.catalogs → c = []) :
    ((setAll st writeOk d).2).fs.entry (FPath.catFinal lang)
      = st.fs.entry (FPath.catFinal lang)
    ∧ lookupA lang ((setAll st writeOk d).2).catalogCache = lookupA lang st.catalogCache
    ∧ (getCatalog ((setAll st writeOk d).2) lang).1 = (getCatalog st lang).1 := by
  have havoid := batchWrites_avoid_catalog d lang hempty
  have main : ((setAll st writeOk d).2).fs.entry (FPath.catFinal lang)
        = st.fs.entry (FPath.catFinal lang)
      ∧ lookupA lang ((setAll st writeOk d).2).catalogCache
        = lookupA lang st.catalogCache := by
    cases hb : (writePhase writeOk st.fs (batchWrites d) 0).2.2 with
    | false =>
      obtain ⟨hc, _, _, hfs⟩ := setAll_fail_preserved st writeOk d hb
      exact ⟨hfs (FPath.catFinal lang) rfl, by rw [hc]⟩
    | true =>
      rw [setAll_success_state st writeOk d hb]
      have hpre := renames_preserve (batchWrites d)
        (CacheState.mk (writePhase writeOk st.fs (batchWrites d) 0).1
          st.catalogCache st.movieCache st.streamCache)
        (FPath.catFinal lang) lang havoid
      constructor
      · refine hpre.1.trans ?_
        exact writePhase_entry writeOk st.fs (batchWrites d) 0 (FPath.catFinal lang)
          (fun w hw => (havoid w hw).1)
      · exact hpre.2
  exact ⟨main.1, main.2, by rw [getCatalog_fst, getCatalog_fst, main.1, main.2]⟩

/-- C4 witness: the skip theorem applied to a committing batch whose
    tamil catalog is the empty sequence, over a state with a non-empty
    tamil catalog on disk. -/
theorem setAll_skips_empty_catalog_witness :
    ((setAll stW (fun _ => true) dEmptyCat).2).fs.entry (FPath.catFinal "tamil")
      = stW.fs.entry (FPath.catFinal "tamil")
    ∧ (getCatalog ((setAll stW (fun _ => true) dEmptyCat).2) "tamil").1
      = (getCatalog stW "tamil").1 := by
  have hempty : ∀ c, ("tamil", c) ∈ dEmptyCat.catalogs → c = [] := by
    intro c hc
    have h1 := List.mem_singleton.mp hc
    injection h1 with h2 h3
  have h := setAll_skips_empty_catalog stW (fun _ => true) dEmptyCat "tamil" hempty
  exact ⟨h.1, h.2.2⟩

/-- C10: whenever an in-memory entry is populated for a key and the
    backing file is gone (the ENOENT branch of the stat), the read
    operations return the cached in-memory value; and the absent result
    is returned only when there is no in-memory entry for the key. -/
theorem stale_read_memory (st : CacheState) (k : String) (v : FileVal) (m : Nat) :
    (lookupA k st.catalogCache = some (v, m) → st.fs.entry (FPath.catFinal k) = none →
      (getCatalog st k).1 = some v)
    ∧ (lookupA k st.movieCache = some (v, m) → st.fs.entry (FPath.movFinal k) = none →
      (getMovie st k).1 = some v)
    ∧ (lookupA k st.streamCache = some (v, m) → st.fs.entry (FPath.strFinal k) = none →
      (getStreams st k).1 = some v)
    ∧ ((getCatalog st k).1 = none → lookupA k st.catalogCache = none)
    ∧ ((getMovie st k).1 = none → lookupA k st.movieCache = none)
    ∧ ((getStreams st k).1 = none → lookupA k st.streamCache = none) := by
  refine ⟨?_, ?_, ?_, ?_, ?_, ?_⟩
  · intro h1 h2
    rw [getCatalog_fst, h1, h2]
    rfl
  · intro h1 h2
    rw [getMovie_fst, h1, h2]
    rfl
  · intro h1 h2
    rw [getStreams_fst, h1, h2]
    rfl
  · intro h
    rw [getCatalog_fst] at h
    cases hl : lookupA k st.catalogCache with
    | none => rfl
    | some c =>
      rw [hl] at h
      cases he : st.fs.entry (FPath.catFinal k) with
      | none => rw [he] at h; exact absurd h (by unfold readValue; simp)
      | some fe =>
        rw [he] at h
        refine absurd h ?_
        show ¬ (if fe.2 = c.2 then some c.1 else some fe.1) = none
        split <;> simp
  · intro h
    rw [getMovie_fst] at h
    cases hl : lookupA k st.movieCache with
    | none => rfl
    | some c =>
      rw [hl] at h
      cases he : st.fs.entry (FPath.movFinal k) with
      | none => rw [he] at h; exact absurd h (by unfold readValue; simp)
      | some fe =>
        rw [he] at h
        refine absurd h ?_
        show ¬ (if fe.2 = c.2 then some c.1 else some fe.1) = none
        split <;> simp
  · intro h
    rw [getStreams_fst] at h
    cases hl : lookupA k st.streamCache with
    | none => rfl
    | some c =>
      rw [hl] at h
      cases he : st.fs.entry (FPath.strFinal k) with
      | none => rw [he] at h; exact absurd h (by unfold readValue; simp)
      | some fe =>
        rw [he] at h
        refine absurd h ?_
        show ¬ (if fe.2 = c.2 then some c.1 else some fe.1) = none
        split <;> simp

/-- C10 witness: the stale-read theorem applied to a concrete state with
    populated memory entries and an empty filesystem. -/
theorem stale_read_memory_witness :
    (getCatalog stC10 "tamil").1 = some (FileVal.catalog ["x"])
    ∧ (getMovie stC10 "mid").1 = some (FileVal.obj "mv")
    ∧ (getStreams stC10 "sid").1 = some (FileVal.obj "sv") := by
  refine ⟨(stale_read_memory stC10 "tamil" (FileVal.catalog ["x"]) 5).1 rfl rfl,
    (stale_read_memory stC10 "mid" (FileVal.obj "mv") 6).2.1 rfl rfl,
    (stale_read_memory stC10 "sid" (FileVal.obj "sv") 7).2.2.1 rfl rfl⟩

/-- C5: while a scrape is running, a new scheduled scrape request returns
    immediately with the whole state untouched (skipped and logged), and
    an explicit full-replacement request raises the error to the caller
    instead of silently skipping; so the guard admits at most one cycle
    at a time. -/
theorem single_flight (s : SchedState) (scraped : Option BatchData) (writeOk : Nat → Bool)
    (h : s.isRunning = true) :
    runScrape s scraped writeOk = (s, RunOutcome.skipped)
    ∧ triggerFullReplacement s scraped writeOk = (s, TrigOutcome.errorRaised) := by
  unfold runScrape triggerFullReplacement
  rw [h]
  exact ⟨by simp, by simp⟩

/-- C5 witness: the single-flight theorem at a concrete running state. -/
theorem single_flight_witness :
    runScrape (SchedState.mk true stW) none (fun _ => true)
      = (SchedState.mk true stW, RunOutcome.skipped)
    ∧ triggerFullReplacement (SchedState.mk true stW) none (fun _ => true)
      = (SchedState.mk true stW, TrigOutcome.errorRaised) :=
  single_flight (SchedState.mk true stW) none (fun _ => true) rfl

/-- C2 counterexample: a normal scheduled run clears the cache before
    scraping, so when the scrape throws, the pre-cycle tamil catalog that
    was servable before the run is gone afterwards, contradicting that
    the previous cache is left untouched on an unrecoverable error. -/
theorem runScrape_clears_before_commit :
    (runScrape sPre none (fun _ => true)).2 = RunOutcome.failed
    ∧ (getCatalog sPre.cache "tamil").1 = some (FileVal.catalog ["m1"])
    ∧ (getCatalog (runScrape sPre none (fun _ => true)).1.cache "tamil").1 = none := by
  refine ⟨by decide, by decide, by decide⟩

/-- C2 (amended): a normal scheduled run deletes all previously cached
    files first; if the cycle then ends in an unrecoverable error
    (scrape failure or failed cache write), the failure is only reported
    and the running flag released, and the cache is left empty: every
    read of all three families returns the absent result, the pre-cycle
    contents are not preserved. -/
theorem runScrape_failure_leaves_empty_cache (s : SchedState) (scraped : Option BatchData)
    (writeOk : Nat → Bool) (hidle : s.isRunning = false)
    (hfail : (runScrape s scraped writeOk).2 = RunOutcome.failed) :
    (runScrape s scraped writeOk).1.isRunning = false
    ∧ (∀ lang, (getCatalog (runScrape s scraped writeOk).1.cache lang).1 = none)
    ∧ (∀ id, (getMovie (runScrape s scraped writeOk).1.cache id).1 = none)
    ∧ (∀ id, (getStreams (runScrape s scraped writeOk).1.cache id).1 = none) := by
  cases scraped with
  | none =>
    have heq : runScrape s none writeOk
        = (SchedState.mk false s.cache.clear, RunOutcome.failed) := by
      unfold runScrape
      rw [hidle]
      simp
    rw [heq]
    exact ⟨rfl, fun lang => getCatalog_clear s.cache lang,
      fun id => getMovie_clear s.cache id, fun id => getStreams_clear s.cache id⟩
  | some d =>
    cases hok : (setAll s.cache.clear writeOk d).1 with
    | true =>
      have heq : (runScrape s (some d) writeOk).2 = RunOutcome.success := by
        unfold runScrape
        rw [hidle]
        simp [hok]
      rw [heq] at hfail
      exact absurd hfail (by simp)
    | false =>
      have heq : runScrape s (some d) writeOk
          = (SchedState.mk false (setAll s.cache.clear writeOk d).2,
            RunOutcome.failed) := by
        unfold runScrape
        rw [hidle]
        simp [hok]
      have hb : (writePhase writeOk s.cache.clear.fs (batchWrites d) 0).2.2 = false := by
        rw [← setAll_fst]
        exact hok
      obtain ⟨hc, hm, hs, hfs⟩ := setAll_fail_preserved s.cache.clear writeOk d hb
      rw [heq]
      refine ⟨rfl, ?_, ?_, ?_⟩
      · intro lang
        rw [getCatalog_fst, hc, hfs (FPath.catFinal lang) rfl,
          clear_entry s.cache (FPath.catFinal lang) rfl]
        rfl
      · intro id
        rw [getMovie_fst, hm, hfs (FPath.movFinal id) rfl,
          clear_entry s.cache (FPath.movFinal id) rfl]
        rfl
      · intro id
        rw [getStreams_fst, hs, hfs (FPath.strFinal id) rfl,
          clear_entry s.cache (FPath.strFinal id) rfl]
        rfl

/-- C2 witness: the amended theorem at the concrete pre-state whose
    scrape throws. -/
theorem runScrape_failure_witness :
    (runScrape sPre none (fun _ => true)).1.isRunning = false
    ∧ (getCatalog (runScrape sPre none (fun _ => true)).1.cache "tamil").1 = none := by
  have h := runScrape_failure_leaves_empty_cache sPre none (fun _ => true) rfl (by decide)
  exact ⟨h.1, h.2.1 "tamil"⟩
